import Mathlib

/-! # Verification of the jsonspark CRUD backend

Shallow embedding of the jsonspark repository's backend logic
(`src/backend/server.js`, flat-path variant "A", and the `/api`-prefixed
variant "B" found in the unnamed source file) together with proofs about
the frozen specification claims.

Modelling conventions:
* JavaScript's `JSON.parse` / `JSON.stringify` builtins are modelled by a
  recursive-descent parser and serializer over a `JValue` tree.  JSON
  numbers are modelled as integers (`Int`); JavaScript's binary
  floating-point fractions and exponents are outside the embedding, so the
  parser rejects a fraction or exponent part.
* Firestore server timestamps are modelled as a `Nat` parameter `now`
  passed to each handler; `Date` / ISO-string rendering of a timestamp is
  abstracted to its numeric value (variant A) or its decimal string
  (variant B).
* The Firestore collection is an association list keyed by slug.  Each
  handler returns its HTTP response, the resulting store, and the trace of
  store operations it performed.
-/

set_option maxHeartbeats 1000000

/-! ## JSON values -/

mutual

inductive JValue : Type where
  | null : JValue
  | bool (b : Bool) : JValue
  | num (n : Int) : JValue
  | str (s : String) : JValue
  | arr (elems : JArray) : JValue
  | obj (fields : JObject) : JValue
deriving DecidableEq

inductive JArray : Type where
  | nil : JArray
  | cons (head : JValue) (tail : JArray) : JArray
deriving DecidableEq

inductive JObject : Type where
  | nil : JObject
  | cons (key : String) (val : JValue) (tail : JObject) : JObject
deriving DecidableEq

end

def JArray.ofList : List JValue → JArray
  | [] => .nil
  | v :: t => .cons v (JArray.ofList t)

def JObject.ofList : List (String × JValue) → JObject
  | [] => .nil
  | (k, v) :: t => .cons k v (JObject.ofList t)

/-- Lookup of the first binding of a key in a JSON object. -/
def JObject.lookup : JObject → String → Option JValue
  | .nil, _ => none
  | .cons k v t, key => if k = key then some v else JObject.lookup t key

/-- Convenience constructor for a JSON object from a list of fields. -/
def jobj (l : List (String × JValue)) : JValue := .obj (JObject.ofList l)

/-- Convenience constructor for a JSON array from a list of values. -/
def jarrOfList (l : List JValue) : JValue := .arr (JArray.ofList l)

/-- Field lookup on a JSON value; `none` when the value is not an object. -/
def bodyLookup (v : JValue) (k : String) : Option JValue :=
  match v with
  | .obj o => o.lookup k
  | _ => none

/-! ## Character helpers -/

/-- JSON insignificant whitespace characters. -/
def isWs (c : Char) : Bool :=
  c = ' ' || c = '\n' || c = '\t' || c = '\r'

def skipWs : List Char → List Char
  | [] => []
  | c :: cs => if isWs c then skipWs cs else c :: cs

/-- Decimal digit character for `n < 10`. -/
def digitCh (n : Nat) : Char := Char.ofNat (48 + n)

/-- Hexadecimal digit character for `n < 16` (lowercase letters). -/
def hexCh (n : Nat) : Char := if n < 10 then digitCh n else Char.ofNat (87 + n)

def isHexCh (c : Char) : Bool :=
  (('0' ≤ c && c ≤ '9') || ('a' ≤ c && c ≤ 'f') || ('A' ≤ c && c ≤ 'F'))

def hexVal (c : Char) : Nat :=
  if '0' ≤ c && c ≤ '9' then c.toNat - 48
  else if 'a' ≤ c && c ≤ 'f' then c.toNat - 87
  else c.toNat - 55

/-- Fuel-indexed digit printer; `natDigits` supplies enough fuel. -/
def natDigitsF : Nat → Nat → List Char
  | 0, _ => []
  | f + 1, n => if n < 10 then [digitCh n] else natDigitsF f (n / 10) ++ [digitCh (n % 10)]

/-- Decimal digits of a natural number, most significant first. -/
def natDigits (n : Nat) : List Char := natDigitsF (n + 1) n

/-- Decimal representation of an integer (as emitted by `JSON.stringify`). -/
def intRepr (n : Int) : List Char :=
  if n < 0 then '-' :: natDigits n.natAbs else natDigits n.toNat

/-- Value of a list of decimal digit characters. -/
def digitsVal (ds : List Char) : Nat :=
  ds.foldl (fun a c => 10 * a + (c.toNat - 48)) 0

/-! ## Serializer (model of `JSON.stringify`) -/

/-- Escape sequence emitted by `JSON.stringify` for a single character. -/
def escChar (c : Char) : List Char :=
  if c = '"' then ['\\', '"']
  else if c = '\\' then ['\\', '\\']
  else if c = '\n' then ['\\', 'n']
  else if c = '\t' then ['\\', 't']
  else if c = '\r' then ['\\', 'r']
  else if c.toNat = 8 then ['\\', 'b']
  else if c.toNat = 12 then ['\\', 'f']
  else if c.toNat < 32 then ['\\', 'u', '0', '0', hexCh (c.toNat / 16), hexCh (c.toNat % 16)]
  else [c]

def serStr : List Char → List Char
  | [] => []
  | c :: cs => escChar c ++ serStr cs

mutual

/-- Characters of the compact JSON rendering of a value. -/
def serV : JValue → List Char
  | .null => "null".data
  | .bool true => "true".data
  | .bool false => "false".data
  | .num n => intRepr n
  | .str s => '"' :: (serStr s.data ++ ['"'])
  | .arr a => '[' :: serItems a
  | .obj o => '{' :: serFields o

/-- Rendering of array elements, including the closing bracket. -/
def serItems : JArray → List Char
  | .nil => [']']
  | .cons h t => serV h ++ serItemsTail t

def serItemsTail : JArray → List Char
  | .nil => [']']
  | .cons h t => ',' :: (serV h ++ serItemsTail t)

/-- Rendering of object fields, including the closing brace. -/
def serFields : JObject → List Char
  | .nil => ['}']
  | .cons k v t => '"' :: (serStr k.data ++ '"' :: ':' :: (serV v ++ serFieldsTail t))

def serFieldsTail : JObject → List Char
  | .nil => ['}']
  | .cons k v t => ',' :: '"' :: (serStr k.data ++ '"' :: ':' :: (serV v ++ serFieldsTail t))

end

/-- Model of `JSON.stringify` (compact form, no extra whitespace). -/
def stringify (v : JValue) : String := String.mk (serV v)

/-! ## Parser (model of `JSON.parse`) -/

/-- Body of a JSON string literal, after the opening quote.  Returns the
decoded characters and the remaining input after the closing quote. -/
def parseStrB : List Char → Option (List Char × List Char)
  | [] => none
  | c :: cs =>
    if c = '"' then some ([], cs)
    else if c = '\\' then
      match cs with
      | [] => none
      | e :: cs' =>
        if e = '"' then (parseStrB cs').map (fun p => ('"' :: p.1, p.2))
        else if e = '\\' then (parseStrB cs').map (fun p => ('\\' :: p.1, p.2))
        else if e = '/' then (parseStrB cs').map (fun p => ('/' :: p.1, p.2))
        else if e = 'n' then (parseStrB cs').map (fun p => ('\n' :: p.1, p.2))
        else if e = 't' then (parseStrB cs').map (fun p => ('\t' :: p.1, p.2))
        else if e = 'r' then (parseStrB cs').map (fun p => ('\r' :: p.1, p.2))
        else if e = 'b' then (parseStrB cs').map (fun p => (Char.ofNat 8 :: p.1, p.2))
        else if e = 'f' then (parseStrB cs').map (fun p => (Char.ofNat 12 :: p.1, p.2))
        else if e = 'u' then
          match cs' with
          | h1 :: h2 :: h3 :: h4 :: cs'' =>
            if isHexCh h1 && isHexCh h2 && isHexCh h3 && isHexCh h4 then
              (parseStrB cs'').map (fun p =>
                (Char.ofNat (4096 * hexVal h1 + 256 * hexVal h2 + 16 * hexVal h3 + hexVal h4) :: p.1, p.2))
            else none
          | _ => none
        else none
    else if c.toNat < 32 then none
    else (parseStrB cs).map (fun p => (c :: p.1, p.2))

/-- Digits of a JSON number (no sign).  Rejects empty digit runs, leading
zeros, and — as a model boundary — fraction and exponent parts. -/
def parseNatPart (cs : List Char) : Option (Nat × List Char) :=
  let ds := cs.takeWhile (fun c => c.isDigit)
  let r := cs.dropWhile (fun c => c.isDigit)
  if ds.isEmpty then none
  else if ds.head? == some '0' && ds.length != 1 then none
  else
    match r with
    | [] => some (digitsVal ds, [])
    | c :: _ => if c = '.' || c = 'e' || c = 'E' then none else some (digitsVal ds, r)

def parseNum (cs : List Char) : Option (JValue × List Char) :=
  match cs with
  | '-' :: cs' =>
    match parseNatPart cs' with
    | some (n, r) => some (.num (-(n : Int)), r)
    | none => none
  | _ =>
    match parseNatPart cs with
    | some (n, r) => some (.num ((n : Int)), r)
    | none => none

mutual

/-- Fuel-indexed recursive-descent parser for a JSON value. -/
def parseVal : Nat → List Char → Option (JValue × List Char)
  | 0, _ => none
  | f + 1, cs =>
    match skipWs cs with
    | [] => none
    | c :: r =>
      if c = 'n' then
        match r with
        | 'u' :: 'l' :: 'l' :: r2 => some (.null, r2)
        | _ => none
      else if c = 't' then
        match r with
        | 'r' :: 'u' :: 'e' :: r2 => some (.bool true, r2)
        | _ => none
      else if c = 'f' then
        match r with
        | 'a' :: 'l' :: 's' :: 'e' :: r2 => some (.bool false, r2)
        | _ => none
      else if c = '"' then
        match parseStrB r with
        | some (s, r2) => some (.str (String.mk s), r2)
        | none => none
      else if c = '[' then
        match parseItems f r with
        | some (a, r2) => some (.arr a, r2)
        | none => none
      else if c = '{' then
        match parseFields f r with
        | some (o, r2) => some (.obj o, r2)
        | none => none
      else if c = '-' || c.isDigit then parseNum (c :: r)
      else none

/-- Array elements after the opening bracket. -/
def parseItems : Nat → List Char → Option (JArray × List Char)
  | 0, _ => none
  | f + 1, cs =>
    match skipWs cs with
    | [] => none
    | c :: r =>
      if c = ']' then some (.nil, r)
      else
        match parseVal f (c :: r) with
        | some (v, r2) =>
          match parseItemsTail f r2 with
          | some (a, r3) => some (.cons v a, r3)
          | none => none
        | none => none

/-- Array continuation: either a comma and another element, or the close. -/
def parseItemsTail : Nat → List Char → Option (JArray × List Char)
  | 0, _ => none
  | f + 1, cs =>
    match skipWs cs with
    | [] => none
    | c :: r =>
      if c = ']' then some (.nil, r)
      else if c = ',' then
        match parseVal f r with
        | some (v, r2) =>
          match parseItemsTail f r2 with
          | some (a, r3) => some (.cons v a, r3)
          | none => none
        | none => none
      else none

/-- Object fields after the opening brace. -/
def parseFields : Nat → List Char → Option (JObject × List Char)
  | 0, _ => none
  | f + 1, cs =>
    match skipWs cs with
    | [] => none
    | c :: r =>
      if c = '}' then some (.nil, r)
      else if c = '"' then
        match parseStrB r with
        | some (k, r2) =>
          match skipWs r2 with
          | ':' :: r3 =>
            match parseVal f r3 with
            | some (v, r4) =>
              match parseFieldsTail f r4 with
              | some (o, r5) => some (.cons (String.mk k) v o, r5)
              | none => none
            | none => none
          | _ => none
        | none => none
      else none

/-- Object continuation: either a comma and another field, or the close. -/
def parseFieldsTail : Nat → List Char → Option (JObject × List Char)
  | 0, _ => none
  | f + 1, cs =>
    match skipWs cs with
    | [] => none
    | c :: r =>
      if c = '}' then some (.nil, r)
      else if c = ',' then
        match skipWs r with
        | '"' :: r2 =>
          match parseStrB r2 with
          | some (k, r3) =>
            match skipWs r3 with
            | ':' :: r4 =>
              match parseVal f r4 with
              | some (v, r5) =>
                match parseFieldsTail f r5 with
                | some (o, r6) => some (.cons (String.mk k) v o, r6)
                | none => none
              | none => none
            | _ => none
          | none => none
        | _ => none
      else none

end

/-- Model of `JSON.parse`: parse a complete value, allowing surrounding
whitespace, rejecting trailing input.  The fuel bound is generous enough
for every serialized value (see `sizeV_le_serV`). -/
def jsonParse (s : String) : Option JValue :=
  match parseVal (2 * s.data.length + 2) s.data with
  | some (v, rest) => if (skipWs rest).isEmpty then some v else none
  | none => none

/-! ## The two pure validators from the source -/

/-- Model of `validateJSON` from the source: `try { return JSON.parse(s) } catch { return null }`.
The sentinel for a parse failure is JavaScript `null`, i.e. `JValue.null`. -/
def validateJSON (s : String) : JValue :=
  match jsonParse s with
  | some v => v
  | none => JValue.null

/-- Model of `validateJSON` applied to a possibly-absent body field: `JSON.parse(undefined)`
throws (it parses the string `"undefined"`), so the sentinel is returned. -/
def validateJSONOpt : Option String → JValue
  | none => JValue.null
  | some s => validateJSON s

/-- Character class of the regex `[a-z0-9-]`. -/
def slugChar (c : Char) : Bool :=
  ('a' ≤ c && c ≤ 'z') || ('0' ≤ c && c ≤ '9') || c = '-'

/-- Model of `validateSlug` from the source: `/^[a-z0-9-]+$/.test(slug)`. -/
def validateSlug (s : String) : Bool :=
  !s.data.isEmpty && s.data.all slugChar

/-- JavaScript truthiness of a JSON value (`!v` in the handlers). -/
def jsTruthy : JValue → Bool
  | .null => false
  | .bool b => b
  | .num n => n != 0
  | .str s => s != ""
  | .arr _ => true
  | .obj _ => true

/-- JavaScript falsiness of a possibly-absent string body field. -/
def jsFalsy : Option String → Bool
  | none => true
  | some s => s == ""

/-- Characters after which the number parser must stop: anything that is not
a digit, a decimal point, or an exponent marker. -/
def stopOK : List Char → Bool
  | [] => true
  | c :: _ => !(c.isDigit || c = '.' || c = 'e' || c = 'E')

mutual

/-- Structural size used to bound the parser fuel. -/
def sizeV : JValue → Nat
  | .null => 1
  | .bool _ => 1
  | .num _ => 1
  | .str _ => 1
  | .arr a => 1 + sizeA a
  | .obj o => 1 + sizeO o

def sizeA : JArray → Nat
  | .nil => 1
  | .cons h t => 1 + sizeV h + sizeA t

def sizeO : JObject → Nat
  | .nil => 1
  | .cons _ v t => 1 + sizeV v + sizeO t

end

/-! ## Document store model

The Firestore collection `api` is an association list keyed by slug.
`admin.firestore.FieldValue.serverTimestamp()` is the `now` argument. -/

structure Doc where
  name : String
  jsonData : JValue
  slug : String
  createdAt : Nat
  updatedAt : Nat
deriving DecidableEq

abbrev Store := List (String × Doc)

/-- Store operations performed by a handler, in order. -/
inductive StoreOp : Type where
  | opGet (slug : String) : StoreOp
  | opSet (slug : String) : StoreOp
  | opUpdate (slug : String) : StoreOp
  | opDelete (slug : String) : StoreOp
deriving DecidableEq

/-- Model of `docRef.get()` — lookup by document id. -/
def dbGet : Store → String → Option Doc
  | [], _ => none
  | (k, d) :: t, slug => if k = slug then some d else dbGet t slug

/-- Model of `docRef.set(data)` — create or overwrite the document with this id. -/
def dbSet : Store → String → Doc → Store
  | [], slug, d => [(slug, d)]
  | (k, e) :: t, slug, d => if k = slug then (k, d) :: t else (k, e) :: dbSet t slug d

/-- Model of `docRef.update({jsonData, updatedAt})` — merge the two fields into an
existing document, leaving the other fields untouched. -/
def dbUpdateJson : Store → String → JValue → Nat → Store
  | [], _, _, _ => []
  | (k, e) :: t, slug, j, now =>
    if k = slug then (k, { e with jsonData := j, updatedAt := now }) :: t
    else (k, e) :: dbUpdateJson t slug j now

/-- Model of `docRef.delete()` — remove the document with this id. -/
def dbDelete : Store → String → Store
  | [], _ => []
  | (k, e) :: t, slug => if k = slug then t else (k, e) :: dbDelete t slug

/-- An HTTP response: status code and JSON body. -/
structure Response where
  status : Nat
  body : JValue
deriving DecidableEq

/-- The `{error: msg}` body used by every failure response. -/
def errBody (msg : String) : JValue := jobj [("error", .str msg)]

/-- Result of a handler: response, resulting store, trace of store calls. -/
structure HResult where
  resp : Response
  db : Store
  ops : List StoreOp
deriving DecidableEq

/-! ## Variant A: flat-path server (`src/backend/server.js`) -/

/-- The `{result:"SUCCESS", data, message:"Success"}` envelope the flat-path
create handler wraps around the parsed payload before storing it. -/
def envelopeCreateA (v : JValue) : JValue :=
  jobj [("result", .str "SUCCESS"), ("data", v), ("message", .str "Success")]

/-- The envelope the flat-path update handler stores; note the parsed value
is additionally wrapped in a one-element array. -/
def envelopeUpdateA (v : JValue) : JValue :=
  jobj [("result", .str "SUCCESS"), ("data", .arr (.cons v .nil)), ("message", .str "Success")]

/-- Handler `app.post('/create')` of the flat-path variant. -/
def createA (now : Nat) (db : Store) (name jsonData slug : Option String) : HResult :=
  if jsFalsy name || jsFalsy jsonData || jsFalsy slug then
    ⟨⟨400, errBody "Missing required fields"⟩, db, []⟩
  else
    let nameS := name.getD ""
    let jsonS := jsonData.getD ""
    let slugS := slug.getD ""
    if !validateSlug slugS then
      ⟨⟨400, errBody "Invalid slug format"⟩, db, []⟩
    else
      let parsedJson := validateJSON jsonS
      if !jsTruthy parsedJson then
        ⟨⟨400, errBody "Invalid JSON data"⟩, db, []⟩
      else
        match dbGet db slugS with
        | some _ => ⟨⟨409, errBody "Slug already exists"⟩, db, [.opGet slugS]⟩
        | none =>
          ⟨⟨201, jobj [("success", .bool true), ("endpoint", .str ("/" ++ slugS)),
                       ("message", .str "API Created")]⟩,
           dbSet db slugS ⟨nameS, envelopeCreateA parsedJson, slugS, now, now⟩,
           [.opGet slugS, .opSet slugS]⟩

/-- Handler `app.get('/:slug')` of the flat-path variant: no slug validation. -/
def readA (db : Store) (slug : String) : Response × List StoreOp :=
  match dbGet db slug with
  | none => (⟨404, errBody "Endpoint not found"⟩, [.opGet slug])
  | some d => (⟨200, d.jsonData⟩, [.opGet slug])

/-- Handler `app.put('/:slug')` of the flat-path variant: no slug validation. -/
def updateA (now : Nat) (db : Store) (slug : String) (jsonData : Option String) : HResult :=
  if jsFalsy jsonData then
    ⟨⟨400, errBody "JSON data is required"⟩, db, []⟩
  else
    let parsedJson := validateJSON (jsonData.getD "")
    if !jsTruthy parsedJson then
      ⟨⟨400, errBody "Invalid JSON data"⟩, db, []⟩
    else
      match dbGet db slug with
      | none => ⟨⟨404, errBody "Endpoint not found"⟩, db, [.opGet slug]⟩
      | some _ =>
        ⟨⟨200, jobj [("success", .bool true), ("message", .str "API Updated")]⟩,
         dbUpdateJson db slug (envelopeUpdateA parsedJson) now,
         [.opGet slug, .opUpdate slug]⟩

/-- Handler `app.delete('/:slug')` of the flat-path variant: no slug validation. -/
def deleteA (db : Store) (slug : String) : HResult :=
  match dbGet db slug with
  | none => ⟨⟨404, errBody "Endpoint not found"⟩, db, [.opGet slug]⟩
  | some _ =>
    ⟨⟨200, jobj [("success", .bool true), ("message", .str "API Deleted")]⟩,
     dbDelete db slug, [.opGet slug, .opDelete slug]⟩

/-- Insertion into a list sorted by `createdAt` descending. -/
def insertByCreated (p : String × Doc) : List (String × Doc) → List (String × Doc)
  | [] => [p]
  | q :: qs => if q.2.createdAt ≤ p.2.createdAt then p :: q :: qs else q :: insertByCreated p qs

/-- Model of `orderBy('createdAt', 'desc')` of the flat-path list handler. -/
def sortByCreatedDesc : List (String × Doc) → List (String × Doc)
  | [] => []
  | p :: ps => insertByCreated p (sortByCreatedDesc ps)

/-- Projection pushed for each document by the flat-path list handler:
slug, name and createdAt only (the `Date` value abstracted to the number). -/
def listEntryA (p : String × Doc) : JValue :=
  jobj [("slug", .str p.2.slug), ("name", .str p.2.name),
        ("createdAt", .num (p.2.createdAt : Int))]

/-- Handler `app.get('/')` of the flat-path variant.  The body has no `count`. -/
def listA (db : Store) : Response :=
  ⟨200, jobj [("endpoints", jarrOfList ((sortByCreatedDesc db).map listEntryA))]⟩

/-- Handler body of `app.get('/health')` of the flat-path variant (registered
after `'/:slug'`). -/
def healthA (nowIso : String) : Response :=
  ⟨200, jobj [("status", .str "OK"), ("timestamp", .str nowIso)]⟩

/-- GET routing of the flat-path variant in registration order:
`'/:slug'` is registered first and matches every non-root single-segment
path — including `/health` — so only `'/'` reaches the list handler and
the `/health` handler is unreachable. -/
def routeGetA (db : Store) (path : String) : Response :=
  if path = "/" then listA db
  else (readA db (path.drop 1)).1

/-! ## Variant B: `/api`-prefixed server (first document of the unnamed file) -/

/-- Handler `app.post('/api/create')`: stores the parsed value unwrapped. -/
def createB (now : Nat) (db : Store) (name jsonData slug : Option String) : HResult :=
  if jsFalsy name || jsFalsy jsonData || jsFalsy slug then
    ⟨⟨400, errBody "Missing required fields"⟩, db, []⟩
  else
    let nameS := name.getD ""
    let jsonS := jsonData.getD ""
    let slugS := slug.getD ""
    if !validateSlug slugS then
      ⟨⟨400, errBody "Invalid slug format. Only lowercase letters, numbers, and hyphens are allowed."⟩,
       db, []⟩
    else
      let parsedJson := validateJSON jsonS
      if !jsTruthy parsedJson then
        ⟨⟨400, errBody "Invalid JSON data"⟩, db, []⟩
      else
        match dbGet db slugS with
        | some _ => ⟨⟨409, errBody "Slug already exists"⟩, db, [.opGet slugS]⟩
        | none =>
          ⟨⟨201, jobj [("success", .bool true), ("endpoint", .str ("/api/" ++ slugS)),
                       ("message", .str "API endpoint created successfully")]⟩,
           dbSet db slugS ⟨nameS, parsedJson, slugS, now, now⟩,
           [.opGet slugS, .opSet slugS]⟩

/-- Handler `app.get('/api/:slug')`: validates the slug first. -/
def readB (db : Store) (slug : String) : Response × List StoreOp :=
  if !validateSlug slug then
    (⟨400, errBody "Invalid slug format"⟩, [])
  else
    match dbGet db slug with
    | none => (⟨404, errBody "Endpoint not found"⟩, [.opGet slug])
    | some d => (⟨200, d.jsonData⟩, [.opGet slug])

/-- Handler `app.put('/api/:slug')`: validates the slug, then the JSON; stores the
parsed value unwrapped. -/
def updateB (now : Nat) (db : Store) (slug : String) (jsonData : Option String) : HResult :=
  if !validateSlug slug then
    ⟨⟨400, errBody "Invalid slug format"⟩, db, []⟩
  else
    let parsedJson := validateJSONOpt jsonData
    if !jsTruthy parsedJson then
      ⟨⟨400, errBody "Invalid JSON data"⟩, db, []⟩
    else
      match dbGet db slug with
      | none => ⟨⟨404, errBody "Endpoint not found"⟩, db, [.opGet slug]⟩
      | some _ =>
        ⟨⟨200, jobj [("success", .bool true), ("message", .str "Endpoint updated successfully")]⟩,
         dbUpdateJson db slug parsedJson now,
         [.opGet slug, .opUpdate slug]⟩

/-- Handler `app.delete('/api/:slug')`: validates the slug first. -/
def deleteB (db : Store) (slug : String) : HResult :=
  if !validateSlug slug then
    ⟨⟨400, errBody "Invalid slug format"⟩, db, []⟩
  else
    match dbGet db slug with
    | none => ⟨⟨404, errBody "Endpoint not found"⟩, db, [.opGet slug]⟩
    | some _ =>
      ⟨⟨200, jobj [("success", .bool true), ("message", .str "Endpoint deleted successfully")]⟩,
       dbDelete db slug, [.opGet slug, .opDelete slug]⟩

/-- Projection pushed for each document by the `/api` list handler. -/
def listEntryB (p : String × Doc) : JValue :=
  jobj [("slug", .str p.1), ("name", .str p.2.name),
        ("createdAt", .str (Nat.repr p.2.createdAt)),
        ("endpoint", .str ("/api/" ++ p.1))]

/-- Handler `app.get('/api')`: `{count, endpoints}`, insertion order, no sort. -/
def listB (db : Store) : Response :=
  ⟨200, jobj [("count", .num (db.length : Int)),
              ("endpoints", jarrOfList (db.map listEntryB))]⟩

/-- Handler `app.get('/api/health')`: liveness only, no store access. -/
def healthApiB (nowIso : String) : Response :=
  ⟨200, jobj [("status", .str "OK"), ("message", .str "API is running"),
              ("timestamp", .str nowIso)]⟩

/-- Handler `app.get('/health')` of the `/api` variant: writes a test document into
the `healthcheck` collection (modelled as `Option JValue`) and reads it
back; responds 500 exactly when the store operation fails (`storeOk`
models whether Firestore is reachable). -/
def healthB (storeOk : Bool) (nowIso : String) (hc : Option JValue) :
    Response × Option JValue :=
  if storeOk then
    let hc2 := some (jobj [("timestamp", .str nowIso)])
    (⟨200, jobj [("status", .str "OK"), ("firebase", .bool true),
                 ("database", .bool hc2.isSome), ("timestamp", .str nowIso)]⟩, hc2)
  else
    (⟨500, jobj [("status", .str "ERROR"), ("timestamp", .str nowIso)]⟩, hc)

/-- Time invariant: every stored document was created no later than it was
updated, and no timestamp lies in the future of `t`. -/
def TimeOK (t : Nat) (db : Store) : Prop :=
  ∀ p ∈ db, p.2.createdAt ≤ p.2.updatedAt ∧ p.2.updatedAt ≤ t

/-! ## Lemmas: digits and numbers -/

/-- Everything we need about a decimal digit character. -/
theorem digitCh_facts (k : Nat) (h : k < 10) :
    isWs (digitCh k) = false ∧ (digitCh k).isDigit = true ∧
    digitCh k ≠ 'n' ∧ digitCh k ≠ 't' ∧ digitCh k ≠ 'f' ∧ digitCh k ≠ '"' ∧
    digitCh k ≠ '[' ∧ digitCh k ≠ '{' ∧ digitCh k ≠ '-' ∧ digitCh k ≠ ']' ∧
    digitCh k ≠ '}' ∧ (digitCh k).toNat = 48 + k := by
  interval_cases k <;> exact ⟨rfl, rfl, by decide, by decide, by decide, by decide, by decide,
    by decide, by decide, by decide, by decide, rfl⟩

theorem digitCh_beq_zero (k : Nat) (h0 : 0 < k) (h : k < 10) :
    (digitCh k == '0') = false := by
  interval_cases k <;> decide

theorem natDigitsF_spec : ∀ f n, n < f →
    (∃ k l, natDigitsF f n = digitCh k :: l ∧ k < 10 ∧ (0 < n → 0 < k)) ∧
    (∀ c ∈ natDigitsF f n, c.isDigit = true) ∧
    digitsVal (natDigitsF f n) = n := by
  intro f
  induction f with
  | zero => intro n hn; omega
  | succ f ih =>
    intro n hn
    by_cases h : n < 10
    · refine ⟨⟨n, [], by simp [natDigitsF, h], h, fun h0 => h0⟩, ?_, ?_⟩
      · intro c hc
        simp [natDigitsF, h] at hc
        subst hc
        exact (digitCh_facts n h).2.1
      · simp [natDigitsF, h, digitsVal, List.foldl]
        have := (digitCh_facts n h).2.2.2.2.2.2.2.2.2.2.2
        omega
    · have hlt : n / 10 < f := by
        have : n / 10 < n := Nat.div_lt_self (by omega) (by omega)
        omega
      obtain ⟨⟨k, l, hkl, hk10, hkpos⟩, hall, hval⟩ := ih (n / 10) hlt
      have hstep : natDigitsF (f + 1) n = natDigitsF f (n / 10) ++ [digitCh (n % 10)] := by
        simp [natDigitsF, h]
      refine ⟨⟨k, l ++ [digitCh (n % 10)], ?_, hk10, ?_⟩, ?_, ?_⟩
      · rw [hstep, hkl]; rfl
      · intro _; exact hkpos (by omega)
      · intro c hc
        rw [hstep] at hc
        rcases List.mem_append.mp hc with hc | hc
        · exact hall c hc
        · simp at hc
          subst hc
          exact (digitCh_facts _ (by omega)).2.1
      · rw [hstep]
        unfold digitsVal
        rw [List.foldl_append]
        have h10 := (digitCh_facts (n % 10) (by omega)).2.2.2.2.2.2.2.2.2.2.2
        simp [List.foldl]
        unfold digitsVal at hval
        rw [hval]
        omega

theorem natDigits_head (n : Nat) :
    ∃ k l, natDigits n = digitCh k :: l ∧ k < 10 ∧ (0 < n → 0 < k) :=
  (natDigitsF_spec (n + 1) n (by omega)).1

theorem natDigits_all_digit (n : Nat) : ∀ c ∈ natDigits n, c.isDigit = true :=
  (natDigitsF_spec (n + 1) n (by omega)).2.1

theorem digitsVal_natDigits (n : Nat) : digitsVal (natDigits n) = n :=
  (natDigitsF_spec (n + 1) n (by omega)).2.2

theorem natDigits_zero : natDigits 0 = ['0'] := rfl


theorem takeWhile_all_app (P : Char → Bool) (l r : List Char)
    (hl : ∀ c ∈ l, P c = true) (hr : ∀ c, r.head? = some c → P c = false) :
    (l ++ r).takeWhile P = l ∧ (l ++ r).dropWhile P = r := by
  induction l with
  | nil =>
    cases r with
    | nil => exact ⟨rfl, rfl⟩
    | cons c r' =>
      have := hr c rfl
      simp [List.takeWhile, List.dropWhile, this]
  | cons c l' ih =>
    have hc := hl c (List.mem_cons_self c l')
    have ih' := ih (fun d hd => hl d (List.mem_cons_of_mem c hd))
    simp [List.takeWhile, List.dropWhile, hc, ih'.1, ih'.2]


theorem stopOK_head (c : Char) (r : List Char) (h : stopOK (c :: r) = true) :
    c.isDigit = false ∧ (decide (c = '.') || decide (c = 'e') || decide (c = 'E')) = false := by
  simp [stopOK] at h
  exact ⟨h.1.1.1, by simp [h.1.1.2, h.1.2, h.2]⟩

theorem parseNatPart_natDigits (n : Nat) (rest : List Char) (h : stopOK rest = true) :
    parseNatPart (natDigits n ++ rest) = some (n, rest) := by
  have hrday : ∀ c, rest.head? = some c → c.isDigit = false := by
    intro c hc
    cases rest with
    | nil => simp at hc
    | cons d r' =>
      simp at hc
      rw [← hc]
      exact (stopOK_head d r' h).1
  obtain ⟨ht, hd⟩ := takeWhile_all_app (fun c => c.isDigit) (natDigits n) rest
    (natDigits_all_digit n) hrday
  unfold parseNatPart
  simp only [ht, hd]
  have hne : (natDigits n).isEmpty = false := by
    obtain ⟨k, l, hkl, _, _⟩ := natDigits_head n
    rw [hkl]; rfl
  rw [hne]
  simp only [Bool.false_eq_true, if_false]
  have hzchk : ((natDigits n).head? == some '0' && (natDigits n).length != 1) = false := by
    by_cases hn0 : n = 0
    · subst hn0
      rw [natDigits_zero]
      rfl
    · obtain ⟨k, l, hkl, hk10, hkpos⟩ := natDigits_head n
      rw [hkl]
      simp only [List.head?]
      have : (digitCh k == '0') = false := digitCh_beq_zero k (hkpos (by omega)) hk10
      simp [this]
  rw [hzchk]
  simp only [Bool.false_eq_true, if_false]
  cases rest with
  | nil => rw [digitsVal_natDigits]
  | cons c r' =>
    have hdot := (stopOK_head c r' h).2
    show (if (decide (c = '.') || decide (c = 'e') || decide (c = 'E')) = true then none
          else some (digitsVal (natDigits n), c :: r')) = _
    rw [hdot]
    simp only [Bool.false_eq_true, if_false]
    rw [digitsVal_natDigits]

theorem parseNum_nodash (c : Char) (cs : List Char) (h : c ≠ '-') :
    parseNum (c :: cs) =
      match parseNatPart (c :: cs) with
      | some (n, r) => some (.num ((n : Int)), r)
      | none => none := by
  unfold parseNum
  split
  · rename_i heq
    injection heq with h1 _
    exact absurd h1 h
  · rfl

theorem parseNum_intRepr (n : Int) (rest : List Char) (h : stopOK rest = true) :
    parseNum (intRepr n ++ rest) = some (.num n, rest) := by
  unfold intRepr
  by_cases hn : n < 0
  · simp only [hn, if_true]
    show (match parseNatPart (natDigits n.natAbs ++ rest) with
          | some (m, r) => some (JValue.num (-(m : Int)), r)
          | none => none) = _
    rw [parseNatPart_natDigits _ _ h]
    show some (JValue.num (-((n.natAbs : Int))), rest) = _
    have hval : -((n.natAbs : Int)) = n := by omega
    rw [hval]
  · simp only [hn, if_false]
    obtain ⟨k, l, hkl, hk10, _⟩ := natDigits_head n.toNat
    rw [hkl]
    have hstep : (digitCh k :: l) ++ rest = digitCh k :: (l ++ rest) := rfl
    rw [hstep, parseNum_nodash _ _ (digitCh_facts k hk10).2.2.2.2.2.2.2.2.1]
    have hglue : digitCh k :: (l ++ rest) = natDigits n.toNat ++ rest := by
      rw [hkl]; rfl
    rw [hglue, parseNatPart_natDigits _ _ h]
    show some (JValue.num ((n.toNat : Int)), rest) = _
    have hval : ((n.toNat : Int)) = n := by omega
    rw [hval]

/-! ## Lemmas: string literals -/

theorem hexCh_facts (m : Nat) (h : m < 16) :
    isHexCh (hexCh m) = true ∧ hexVal (hexCh m) = m := by
  interval_cases m <;> exact ⟨rfl, rfl⟩

theorem parseStrB_quote (cs : List Char) : parseStrB ('"' :: cs) = some ([], cs) := by
  rw [parseStrB.eq_def]
  rfl

theorem parseStrB_esc_quote (cs : List Char) :
    parseStrB ('\\' :: '"' :: cs) = (parseStrB cs).map (fun p => ('"' :: p.1, p.2)) := by
  rw [parseStrB.eq_def]
  rfl

theorem parseStrB_esc_back (cs : List Char) :
    parseStrB ('\\' :: '\\' :: cs) = (parseStrB cs).map (fun p => ('\\' :: p.1, p.2)) := by
  rw [parseStrB.eq_def]
  rfl

theorem parseStrB_esc_n (cs : List Char) :
    parseStrB ('\\' :: 'n' :: cs) = (parseStrB cs).map (fun p => ('\n' :: p.1, p.2)) := by
  rw [parseStrB.eq_def]
  rfl

theorem parseStrB_esc_t (cs : List Char) :
    parseStrB ('\\' :: 't' :: cs) = (parseStrB cs).map (fun p => ('\t' :: p.1, p.2)) := by
  rw [parseStrB.eq_def]
  rfl

theorem parseStrB_esc_r (cs : List Char) :
    parseStrB ('\\' :: 'r' :: cs) = (parseStrB cs).map (fun p => ('\r' :: p.1, p.2)) := by
  rw [parseStrB.eq_def]
  rfl

theorem parseStrB_esc_b (cs : List Char) :
    parseStrB ('\\' :: 'b' :: cs) = (parseStrB cs).map (fun p => (Char.ofNat 8 :: p.1, p.2)) := by
  rw [parseStrB.eq_def]
  rfl

theorem parseStrB_esc_f (cs : List Char) :
    parseStrB ('\\' :: 'f' :: cs) = (parseStrB cs).map (fun p => (Char.ofNat 12 :: p.1, p.2)) := by
  rw [parseStrB.eq_def]
  rfl

theorem parseStrB_u (h1 h2 h3 h4 : Char) (cs : List Char) :
    parseStrB ('\\' :: 'u' :: h1 :: h2 :: h3 :: h4 :: cs) =
      (if (isHexCh h1 && isHexCh h2 && isHexCh h3 && isHexCh h4) = true then
        (parseStrB cs).map (fun p =>
          (Char.ofNat (4096 * hexVal h1 + 256 * hexVal h2 + 16 * hexVal h3 + hexVal h4) :: p.1, p.2))
      else none) := by
  rw [parseStrB.eq_def]
  rfl

theorem parseStrB_raw (c : Char) (cs : List Char)
    (h1 : c ≠ '"') (h2 : c ≠ '\\') (h3 : ¬(c.toNat < 32)) :
    parseStrB (c :: cs) = (parseStrB cs).map (fun p => (c :: p.1, p.2)) := by
  rw [parseStrB.eq_def]
  simp [h1, h2, h3]

theorem parseStrB_serStr (s rest : List Char) :
    parseStrB (serStr s ++ '"' :: rest) = some (s, rest) := by
  induction s with
  | nil =>
    show parseStrB ('"' :: rest) = _
    exact parseStrB_quote rest
  | cons c cs ih =>
    show parseStrB ((escChar c ++ serStr cs) ++ '"' :: rest) = _
    rw [List.append_assoc]
    unfold escChar
    by_cases h1 : c = '"'
    · subst h1
      simp only [if_true]
      show parseStrB ('\\' :: '"' :: (serStr cs ++ '"' :: rest)) = _
      rw [parseStrB_esc_quote, ih]
      rfl
    · rw [if_neg h1]
      by_cases h2 : c = '\\'
      · subst h2
        simp only [if_true]
        show parseStrB ('\\' :: '\\' :: (serStr cs ++ '"' :: rest)) = _
        rw [parseStrB_esc_back, ih]
        rfl
      · rw [if_neg h2]
        by_cases h3 : c = '\n'
        · subst h3
          simp only [if_true]
          show parseStrB ('\\' :: 'n' :: (serStr cs ++ '"' :: rest)) = _
          rw [parseStrB_esc_n, ih]
          rfl
        · rw [if_neg h3]
          by_cases h4 : c = '\t'
          · subst h4
            simp only [if_true]
            show parseStrB ('\\' :: 't' :: (serStr cs ++ '"' :: rest)) = _
            rw [parseStrB_esc_t, ih]
            rfl
          · rw [if_neg h4]
            by_cases h5 : c = '\r'
            · subst h5
              simp only [if_true]
              show parseStrB ('\\' :: 'r' :: (serStr cs ++ '"' :: rest)) = _
              rw [parseStrB_esc_r, ih]
              rfl
            · rw [if_neg h5]
              by_cases h6 : c.toNat = 8
              · simp only [h6, if_pos rfl]
                show parseStrB ('\\' :: 'b' :: (serStr cs ++ '"' :: rest)) = _
                rw [parseStrB_esc_b, ih]
                show some (Char.ofNat 8 :: cs, rest) = some (c :: cs, rest)
                rw [← h6, Char.ofNat_toNat]
              · rw [if_neg h6]
                by_cases h7 : c.toNat = 12
                · simp only [h7, if_pos rfl]
                  show parseStrB ('\\' :: 'f' :: (serStr cs ++ '"' :: rest)) = _
                  rw [parseStrB_esc_f, ih]
                  show some (Char.ofNat 12 :: cs, rest) = some (c :: cs, rest)
                  rw [← h7, Char.ofNat_toNat]
                · rw [if_neg h7]
                  by_cases h8 : c.toNat < 32
                  · simp only [h8, if_true]
                    show parseStrB ('\\' :: 'u' :: '0' :: '0' ::
                      hexCh (c.toNat / 16) :: hexCh (c.toNat % 16) ::
                      (serStr cs ++ '"' :: rest)) = _
                    rw [parseStrB_u]
                    have hhi := hexCh_facts (c.toNat / 16) (by omega)
                    have hlo := hexCh_facts (c.toNat % 16) (by omega)
                    rw [ih]
                    simp only [hhi.1, hlo.1, hhi.2, hlo.2]
                    have hq : isHexCh '0' = true := rfl
                    have hqv : hexVal '0' = 0 := rfl
                    simp only [hq, hqv, Bool.and_self, if_pos rfl, Option.map_some]
                    have hval : 4096 * 0 + 256 * 0 + 16 * (c.toNat / 16) + c.toNat % 16 = c.toNat := by
                      omega
                    rw [hval, Char.ofNat_toNat]
                    simp
                  · simp only [h8, if_false]
                    show parseStrB (c :: (serStr cs ++ '"' :: rest)) = _
                    rw [parseStrB_raw c _ h1 h2 h8, ih]
                    rfl

/-! ## Lemmas: whole-value round trip -/


theorem sizeV_pos (v : JValue) : 1 ≤ sizeV v := by
  cases v <;> simp [sizeV]

theorem sizeA_pos (a : JArray) : 1 ≤ sizeA a := by
  cases a <;> simp only [sizeA] <;> omega

theorem sizeO_pos (o : JObject) : 1 ≤ sizeO o := by
  cases o <;> simp only [sizeO] <;> omega

theorem natDigits_length_pos (n : Nat) : 1 ≤ (natDigits n).length := by
  obtain ⟨k, l, hkl, _, _⟩ := natDigits_head n
  rw [hkl]
  simp

theorem intRepr_length_pos (n : Int) : 1 ≤ (intRepr n).length := by
  unfold intRepr
  by_cases h : n < 0
  · simp [h]
  · simp only [h, if_false]
    exact natDigits_length_pos _

mutual

theorem sizeV_le_serV : ∀ v : JValue, sizeV v ≤ 2 * (serV v).length
  | .null => by simp [sizeV, serV]
  | .bool b => by cases b <;> simp [sizeV, serV]
  | .num n => by
    have := intRepr_length_pos n
    simp only [sizeV, serV]
    omega
  | .str s => by
    simp only [sizeV, serV, List.length_cons, List.length_append]
    omega
  | .arr a => by
    have := sizeA_le_serItems a
    simp only [sizeV, serV, List.length_cons]
    omega
  | .obj o => by
    have := sizeO_le_serFields o
    simp only [sizeV, serV, List.length_cons]
    omega

theorem sizeA_le_serItems : ∀ a : JArray, sizeA a ≤ 2 * (serItems a).length + 1
  | .nil => by simp [sizeA, serItems]
  | .cons h t => by
    have h1 := sizeV_le_serV h
    have h2 := sizeA_le_serItemsTail t
    simp only [sizeA, serItems, List.length_append]
    omega

theorem sizeA_le_serItemsTail : ∀ a : JArray, sizeA a ≤ 2 * (serItemsTail a).length
  | .nil => by simp [sizeA, serItemsTail]
  | .cons h t => by
    have h1 := sizeV_le_serV h
    have h2 := sizeA_le_serItemsTail t
    simp only [sizeA, serItemsTail, List.length_cons, List.length_append]
    omega

theorem sizeO_le_serFields : ∀ o : JObject, sizeO o ≤ 2 * (serFields o).length + 1
  | .nil => by simp [sizeO, serFields]
  | .cons k v t => by
    have h1 := sizeV_le_serV v
    have h2 := sizeO_le_serFieldsTail t
    simp only [sizeO, serFields, List.length_cons, List.length_append]
    omega

theorem sizeO_le_serFieldsTail : ∀ o : JObject, sizeO o ≤ 2 * (serFieldsTail o).length
  | .nil => by simp [sizeO, serFieldsTail]
  | .cons k v t => by
    have h1 := sizeV_le_serV v
    have h2 := sizeO_le_serFieldsTail t
    simp only [sizeO, serFieldsTail, List.length_cons, List.length_append]
    omega

end

theorem skipWs_cons (c : Char) (cs : List Char) (h : isWs c = false) :
    skipWs (c :: cs) = c :: cs := by
  simp [skipWs, h]

theorem serV_head (v : JValue) :
    ∃ c l, serV v = c :: l ∧ isWs c = false ∧ c ≠ ']' ∧ c ≠ '}' := by
  cases v with
  | null => exact ⟨'n', _, rfl, by decide, by decide, by decide⟩
  | bool b =>
    cases b
    · exact ⟨'f', _, rfl, by decide, by decide, by decide⟩
    · exact ⟨'t', _, rfl, by decide, by decide, by decide⟩
  | num n =>
    show ∃ c l, intRepr n = c :: l ∧ _
    unfold intRepr
    by_cases hn : n < 0
    · simp only [hn, if_true]
      exact ⟨'-', _, rfl, by decide, by decide, by decide⟩
    · simp only [hn, if_false]
      obtain ⟨k, l, hkl, hk10, _⟩ := natDigits_head n.toNat
      obtain ⟨w1, _, _, _, _, _, _, _, _, w10, w11, _⟩ := digitCh_facts k hk10
      exact ⟨digitCh k, l, hkl, w1, w10, w11⟩
  | str s => exact ⟨'"', _, rfl, by decide, by decide, by decide⟩
  | arr a => exact ⟨'[', _, rfl, by decide, by decide, by decide⟩
  | obj o => exact ⟨'{', _, rfl, by decide, by decide, by decide⟩

theorem stopOK_serItemsTail (t : JArray) (rest : List Char) :
    stopOK (serItemsTail t ++ rest) = true := by
  cases t <;> rfl

theorem stopOK_serFieldsTail (t : JObject) (rest : List Char) :
    stopOK (serFieldsTail t ++ rest) = true := by
  cases t <;> rfl

theorem parseVal_null_step (f : Nat) (rest : List Char) :
    parseVal (f + 1) ('n' :: 'u' :: 'l' :: 'l' :: rest) = some (.null, rest) := rfl

theorem parseVal_true_step (f : Nat) (rest : List Char) :
    parseVal (f + 1) ('t' :: 'r' :: 'u' :: 'e' :: rest) = some (.bool true, rest) := rfl

theorem parseVal_false_step (f : Nat) (rest : List Char) :
    parseVal (f + 1) ('f' :: 'a' :: 'l' :: 's' :: 'e' :: rest) = some (.bool false, rest) := rfl

theorem parseVal_quote_step (f : Nat) (cs : List Char) :
    parseVal (f + 1) ('"' :: cs) =
      (match parseStrB cs with
       | some (s, r2) => some (.str (String.mk s), r2)
       | none => none) := rfl

theorem parseVal_lbrack_step (f : Nat) (cs : List Char) :
    parseVal (f + 1) ('[' :: cs) =
      (match parseItems f cs with
       | some (a, r2) => some (.arr a, r2)
       | none => none) := rfl

theorem parseVal_lbrace_step (f : Nat) (cs : List Char) :
    parseVal (f + 1) ('{' :: cs) =
      (match parseFields f cs with
       | some (o, r2) => some (.obj o, r2)
       | none => none) := rfl

theorem parseVal_dash_step (f : Nat) (cs : List Char) :
    parseVal (f + 1) ('-' :: cs) = parseNum ('-' :: cs) := rfl

theorem parseVal_digit_step (f : Nat) (c : Char) (cs : List Char)
    (hw : isWs c = false) (hn : c ≠ 'n') (ht : c ≠ 't') (hf : c ≠ 'f')
    (hq : c ≠ '"') (hlb : c ≠ '[') (hlc : c ≠ '{') (hd : c.isDigit = true) :
    parseVal (f + 1) (c :: cs) = parseNum (c :: cs) := by
  rw [parseVal.eq_def]
  simp only [skipWs_cons c cs hw]
  simp [hn, ht, hf, hq, hlb, hlc, hd]

theorem parseItems_close_step (f : Nat) (r : List Char) :
    parseItems (f + 1) (']' :: r) = some (.nil, r) := rfl

theorem parseItems_go_step (f : Nat) (c : Char) (r : List Char)
    (hw : isWs c = false) (hne : c ≠ ']') :
    parseItems (f + 1) (c :: r) =
      (match parseVal f (c :: r) with
       | some (v, r2) =>
         match parseItemsTail f r2 with
         | some (a, r3) => some (.cons v a, r3)
         | none => none
       | none => none) := by
  rw [parseItems.eq_def]
  simp only [skipWs_cons c r hw]
  simp [hne]

theorem parseItemsTail_close_step (f : Nat) (r : List Char) :
    parseItemsTail (f + 1) (']' :: r) = some (.nil, r) := rfl

theorem parseItemsTail_comma_step (f : Nat) (r : List Char) :
    parseItemsTail (f + 1) (',' :: r) =
      (match parseVal f r with
       | some (v, r2) =>
         match parseItemsTail f r2 with
         | some (a, r3) => some (.cons v a, r3)
         | none => none
       | none => none) := rfl

theorem parseFields_close_step (f : Nat) (r : List Char) :
    parseFields (f + 1) ('}' :: r) = some (.nil, r) := rfl

theorem parseFields_key_step (f : Nat) (r : List Char) :
    parseFields (f + 1) ('"' :: r) =
      (match parseStrB r with
       | some (k, r2) =>
         match skipWs r2 with
         | ':' :: r3 =>
           match parseVal f r3 with
           | some (v, r4) =>
             match parseFieldsTail f r4 with
             | some (o, r5) => some (.cons (String.mk k) v o, r5)
             | none => none
           | none => none
         | _ => none
       | none => none) := rfl

theorem parseFieldsTail_close_step (f : Nat) (r : List Char) :
    parseFieldsTail (f + 1) ('}' :: r) = some (.nil, r) := rfl

theorem parseFieldsTail_comma_step (f : Nat) (r : List Char) :
    parseFieldsTail (f + 1) (',' :: r) =
      (match skipWs r with
       | '"' :: r2 =>
         match parseStrB r2 with
         | some (k, r3) =>
           match skipWs r3 with
           | ':' :: r4 =>
             match parseVal f r4 with
             | some (v, r5) =>
               match parseFieldsTail f r5 with
               | some (o, r6) => some (.cons (String.mk k) v o, r6)
               | none => none
             | none => none
           | _ => none
         | none => none
       | _ => none) := rfl

mutual

theorem parseVal_serV : ∀ (v : JValue) (f : Nat) (rest : List Char),
    sizeV v ≤ f → stopOK rest = true → parseVal f (serV v ++ rest) = some (v, rest)
  | .null, f, rest, hf, _ => by
    obtain ⟨g, rfl⟩ : ∃ g, f = g + 1 := ⟨f - 1, by simp only [sizeV] at hf; omega⟩
    exact parseVal_null_step g rest
  | .bool true, f, rest, hf, _ => by
    obtain ⟨g, rfl⟩ : ∃ g, f = g + 1 := ⟨f - 1, by simp only [sizeV] at hf; omega⟩
    exact parseVal_true_step g rest
  | .bool false, f, rest, hf, _ => by
    obtain ⟨g, rfl⟩ : ∃ g, f = g + 1 := ⟨f - 1, by simp only [sizeV] at hf; omega⟩
    exact parseVal_false_step g rest
  | .num n, f, rest, hf, hstop => by
    obtain ⟨g, rfl⟩ : ∃ g, f = g + 1 := ⟨f - 1, by simp only [sizeV] at hf; omega⟩
    show parseVal (g + 1) (intRepr n ++ rest) = some (.num n, rest)
    have hpn := parseNum_intRepr n rest hstop
    unfold intRepr at hpn ⊢
    by_cases hn : n < 0
    · simp only [hn, if_true] at hpn ⊢
      show parseVal (g + 1) ('-' :: (natDigits n.natAbs ++ rest)) = some (.num n, rest)
      rw [parseVal_dash_step]
      exact hpn
    · simp only [hn, if_false] at hpn ⊢
      obtain ⟨k, l, hkl, hk10, _⟩ := natDigits_head n.toNat
      obtain ⟨w1, w2, w3, w4, w5, w6, w7, w8, _, _, _, _⟩ := digitCh_facts k hk10
      rw [hkl] at hpn ⊢
      show parseVal (g + 1) (digitCh k :: (l ++ rest)) = some (.num n, rest)
      rw [parseVal_digit_step g (digitCh k) (l ++ rest) w1 w3 w4 w5 w6 w7 w8 w2]
      exact hpn
  | .str s, f, rest, hf, _ => by
    obtain ⟨g, rfl⟩ : ∃ g, f = g + 1 := ⟨f - 1, by simp only [sizeV] at hf; omega⟩
    show parseVal (g + 1) ('"' :: ((serStr s.data ++ ['"']) ++ rest)) = some (.str s, rest)
    rw [parseVal_quote_step]
    simp only [List.append_assoc, List.cons_append, List.nil_append]
    rw [parseStrB_serStr]
  | .arr a, f, rest, hf, _ => by
    obtain ⟨g, rfl⟩ : ∃ g, f = g + 1 := ⟨f - 1, by simp only [sizeV] at hf; omega⟩
    show parseVal (g + 1) ('[' :: (serItems a ++ rest)) = some (.arr a, rest)
    rw [parseVal_lbrack_step]
    rw [parseItems_serItems a g rest (by simp only [sizeV] at hf; omega)]
  | .obj o, f, rest, hf, _ => by
    obtain ⟨g, rfl⟩ : ∃ g, f = g + 1 := ⟨f - 1, by simp only [sizeV] at hf; omega⟩
    show parseVal (g + 1) ('{' :: (serFields o ++ rest)) = some (.obj o, rest)
    rw [parseVal_lbrace_step]
    rw [parseFields_serFields o g rest (by simp only [sizeV] at hf; omega)]

theorem parseItems_serItems : ∀ (a : JArray) (f : Nat) (rest : List Char),
    sizeA a ≤ f → parseItems f (serItems a ++ rest) = some (a, rest)
  | .nil, f, rest, hf => by
    obtain ⟨g, rfl⟩ : ∃ g, f = g + 1 := ⟨f - 1, by simp only [sizeA] at hf; omega⟩
    exact parseItems_close_step g rest
  | .cons h t, f, rest, hf => by
    obtain ⟨g, rfl⟩ : ∃ g, f = g + 1 := ⟨f - 1, by simp only [sizeA] at hf; omega⟩
    simp only [sizeA] at hf
    obtain ⟨c, l, hcl, hws, hnb, _⟩ := serV_head h
    show parseItems (g + 1) ((serV h ++ serItemsTail t) ++ rest) = some (.cons h t, rest)
    rw [List.append_assoc, hcl]
    show parseItems (g + 1) (c :: (l ++ (serItemsTail t ++ rest))) = some (.cons h t, rest)
    rw [parseItems_go_step g c _ hws hnb]
    have hback : c :: (l ++ (serItemsTail t ++ rest)) = serV h ++ (serItemsTail t ++ rest) := by
      rw [hcl]
      rfl
    rw [hback]
    rw [parseVal_serV h g _ (by omega) (stopOK_serItemsTail t rest)]
    show (match parseItemsTail g (serItemsTail t ++ rest) with
          | some (a, r3) => some (JArray.cons h a, r3)
          | none => none) = some (JArray.cons h t, rest)
    rw [parseItemsTail_serItemsTail t g rest (by omega)]

theorem parseItemsTail_serItemsTail : ∀ (a : JArray) (f : Nat) (rest : List Char),
    sizeA a ≤ f → parseItemsTail f (serItemsTail a ++ rest) = some (a, rest)
  | .nil, f, rest, hf => by
    obtain ⟨g, rfl⟩ : ∃ g, f = g + 1 := ⟨f - 1, by simp only [sizeA] at hf; omega⟩
    exact parseItemsTail_close_step g rest
  | .cons h t, f, rest, hf => by
    obtain ⟨g, rfl⟩ : ∃ g, f = g + 1 := ⟨f - 1, by simp only [sizeA] at hf; omega⟩
    simp only [sizeA] at hf
    show parseItemsTail (g + 1) (',' :: ((serV h ++ serItemsTail t) ++ rest)) = some (.cons h t, rest)
    rw [parseItemsTail_comma_step]
    rw [List.append_assoc]
    rw [parseVal_serV h g _ (by omega) (stopOK_serItemsTail t rest)]
    show (match parseItemsTail g (serItemsTail t ++ rest) with
          | some (a, r3) => some (JArray.cons h a, r3)
          | none => none) = some (JArray.cons h t, rest)
    rw [parseItemsTail_serItemsTail t g rest (by omega)]

theorem parseFields_serFields : ∀ (o : JObject) (f : Nat) (rest : List Char),
    sizeO o ≤ f → parseFields f (serFields o ++ rest) = some (o, rest)
  | .nil, f, rest, hf => by
    obtain ⟨g, rfl⟩ : ∃ g, f = g + 1 := ⟨f - 1, by simp only [sizeO] at hf; omega⟩
    exact parseFields_close_step g rest
  | .cons k v t, f, rest, hf => by
    obtain ⟨g, rfl⟩ : ∃ g, f = g + 1 := ⟨f - 1, by simp only [sizeO] at hf; omega⟩
    simp only [sizeO] at hf
    show parseFields (g + 1)
      ('"' :: ((serStr k.data ++ '"' :: ':' :: (serV v ++ serFieldsTail t)) ++ rest)) =
      some (.cons k v t, rest)
    rw [parseFields_key_step]
    simp only [List.append_assoc, List.cons_append]
    rw [parseStrB_serStr]
    show (match skipWs (':' :: (serV v ++ (serFieldsTail t ++ rest))) with
          | ':' :: r3 =>
            match parseVal g r3 with
            | some (w, r4) =>
              match parseFieldsTail g r4 with
              | some (o2, r5) => some (JObject.cons (String.mk k.data) w o2, r5)
              | none => none
            | none => none
          | _ => none) = some (JObject.cons k v t, rest)
    rw [skipWs_cons _ _ (by decide)]
    show (match parseVal g (serV v ++ (serFieldsTail t ++ rest)) with
          | some (w, r4) =>
            match parseFieldsTail g r4 with
            | some (o2, r5) => some (JObject.cons (String.mk k.data) w o2, r5)
            | none => none
          | none => none) = some (JObject.cons k v t, rest)
    rw [parseVal_serV v g _ (by omega) (stopOK_serFieldsTail t rest)]
    show (match parseFieldsTail g (serFieldsTail t ++ rest) with
          | some (o2, r5) => some (JObject.cons (String.mk k.data) v o2, r5)
          | none => none) = some (JObject.cons k v t, rest)
    rw [parseFieldsTail_serFieldsTail t g rest (by omega)]

theorem parseFieldsTail_serFieldsTail : ∀ (o : JObject) (f : Nat) (rest : List Char),
    sizeO o ≤ f → parseFieldsTail f (serFieldsTail o ++ rest) = some (o, rest)
  | .nil, f, rest, hf => by
    obtain ⟨g, rfl⟩ : ∃ g, f = g + 1 := ⟨f - 1, by simp only [sizeO] at hf; omega⟩
    exact parseFieldsTail_close_step g rest
  | .cons k v t, f, rest, hf => by
    obtain ⟨g, rfl⟩ : ∃ g, f = g + 1 := ⟨f - 1, by simp only [sizeO] at hf; omega⟩
    simp only [sizeO] at hf
    show parseFieldsTail (g + 1)
      (',' :: '"' :: ((serStr k.data ++ '"' :: ':' :: (serV v ++ serFieldsTail t)) ++ rest)) =
      some (.cons k v t, rest)
    rw [parseFieldsTail_comma_step]
    rw [skipWs_cons _ _ (by decide)]
    show (match parseStrB ((serStr k.data ++ '"' :: ':' :: (serV v ++ serFieldsTail t)) ++ rest) with
          | some (k2, r3) =>
            match skipWs r3 with
            | ':' :: r4 =>
              match parseVal g r4 with
              | some (w, r5) =>
                match parseFieldsTail g r5 with
                | some (o2, r6) => some (JObject.cons (String.mk k2) w o2, r6)
                | none => none
              | none => none
            | _ => none
          | none => none) = some (JObject.cons k v t, rest)
    simp only [List.append_assoc, List.cons_append]
    rw [parseStrB_serStr]
    show (match skipWs (':' :: (serV v ++ (serFieldsTail t ++ rest))) with
          | ':' :: r4 =>
            match parseVal g r4 with
            | some (w, r5) =>
              match parseFieldsTail g r5 with
              | some (o2, r6) => some (JObject.cons (String.mk k.data) w o2, r6)
              | none => none
            | none => none
          | _ => none) = some (JObject.cons k v t, rest)
    rw [skipWs_cons _ _ (by decide)]
    show (match parseVal g (serV v ++ (serFieldsTail t ++ rest)) with
          | some (w, r5) =>
            match parseFieldsTail g r5 with
            | some (o2, r6) => some (JObject.cons (String.mk k.data) w o2, r6)
            | none => none
          | none => none) = some (JObject.cons k v t, rest)
    rw [parseVal_serV v g _ (by omega) (stopOK_serFieldsTail t rest)]
    show (match parseFieldsTail g (serFieldsTail t ++ rest) with
          | some (o2, r6) => some (JObject.cons (String.mk k.data) v o2, r6)
          | none => none) = some (JObject.cons k v t, rest)
    rw [parseFieldsTail_serFieldsTail t g rest (by omega)]

end

/-- Round trip: parsing a serialized value recovers it exactly. -/
theorem jsonParse_stringify (v : JValue) : jsonParse (stringify v) = some v := by
  unfold jsonParse stringify
  show (match parseVal (2 * (serV v).length + 2) (serV v) with
        | some (w, rest) => if (skipWs rest).isEmpty then some w else none
        | none => none) = some v
  have h1 : parseVal (2 * (serV v).length + 2) (serV v ++ []) = some (v, []) :=
    parseVal_serV v _ [] (by have := sizeV_le_serV v; omega) rfl
  rw [List.append_nil] at h1
  rw [h1]
  rfl

/-! ## Store lemmas -/

theorem dbGet_dbSet_self (db : Store) (k : String) (d : Doc) :
    dbGet (dbSet db k d) k = some d := by
  induction db with
  | nil => simp [dbSet, dbGet]
  | cons p t ih =>
    obtain ⟨k', e⟩ := p
    simp only [dbSet]
    by_cases h : k' = k
    · rw [if_pos h]
      simp only [dbGet]
      rw [if_pos h]
    · rw [if_neg h]
      simp only [dbGet]
      rw [if_neg h]
      exact ih

theorem dbGet_dbSet_ne (db : Store) (k k' : String) (d : Doc) (h : k' ≠ k) :
    dbGet (dbSet db k d) k' = dbGet db k' := by
  induction db with
  | nil =>
    simp only [dbSet, dbGet]
    rw [if_neg (fun hh => h hh.symm)]
  | cons p t ih =>
    obtain ⟨k2, e⟩ := p
    simp only [dbSet]
    by_cases h2 : k2 = k
    · rw [if_pos h2]
      simp only [dbGet]
      subst h2
      have hne : k2 ≠ k' := fun hh => h (hh.symm)
      rw [if_neg hne, if_neg hne]
    · rw [if_neg h2]
      simp only [dbGet]
      by_cases h3 : k2 = k'
      · rw [if_pos h3, if_pos h3]
      · rw [if_neg h3, if_neg h3]
        exact ih

theorem dbGet_dbUpdateJson_self (db : Store) (s : String) (d : Doc) (j : JValue) (now : Nat)
    (h : dbGet db s = some d) :
    dbGet (dbUpdateJson db s j now) s = some { d with jsonData := j, updatedAt := now } := by
  induction db with
  | nil => simp [dbGet] at h
  | cons p t ih =>
    obtain ⟨k, e⟩ := p
    simp only [dbGet] at h
    simp only [dbUpdateJson]
    by_cases hk : k = s
    · rw [if_pos hk] at h
      injection h with h
      subst h
      rw [if_pos hk]
      simp only [dbGet]
      rw [if_pos hk]
    · rw [if_neg hk] at h
      rw [if_neg hk]
      simp only [dbGet]
      rw [if_neg hk]
      exact ih h

theorem dbGet_dbUpdateJson_ne (db : Store) (s k : String) (j : JValue) (now : Nat)
    (h : k ≠ s) :
    dbGet (dbUpdateJson db s j now) k = dbGet db k := by
  induction db with
  | nil => simp [dbUpdateJson]
  | cons p t ih =>
    obtain ⟨k2, e⟩ := p
    simp only [dbUpdateJson]
    by_cases h2 : k2 = s
    · rw [if_pos h2]
      simp only [dbGet]
      have hne : k2 ≠ k := fun hh => h (hh ▸ h2)
      rw [if_neg hne, if_neg hne]
    · rw [if_neg h2]
      simp only [dbGet]
      by_cases h3 : k2 = k
      · rw [if_pos h3, if_pos h3]
      · rw [if_neg h3, if_neg h3]
        exact ih

theorem mem_dbSet (db : Store) (k : String) (d : Doc) (p : String × Doc)
    (h : p ∈ dbSet db k d) : p = (k, d) ∨ p ∈ db := by
  induction db with
  | nil => simpa [dbSet] using h
  | cons q t ih =>
    obtain ⟨k2, e⟩ := q
    simp only [dbSet] at h
    by_cases h2 : k2 = k
    · rw [if_pos h2] at h
      subst h2
      rcases List.mem_cons.mp h with h | h
      · left
        simp [h]
      · right
        exact List.mem_cons_of_mem _ h
    · rw [if_neg h2] at h
      rcases List.mem_cons.mp h with h | h
      · right
        simp [h]
      · rcases ih h with h | h
        · exact Or.inl h
        · exact Or.inr (List.mem_cons_of_mem _ h)

theorem mem_dbDelete (db : Store) (k : String) (p : String × Doc)
    (h : p ∈ dbDelete db k) : p ∈ db := by
  induction db with
  | nil => simp [dbDelete] at h
  | cons q t ih =>
    obtain ⟨k2, e⟩ := q
    simp only [dbDelete] at h
    by_cases h2 : k2 = k
    · rw [if_pos h2] at h
      exact List.mem_cons_of_mem _ h
    · rw [if_neg h2] at h
      rcases List.mem_cons.mp h with h | h
      · simp [h]
      · exact List.mem_cons_of_mem _ (ih h)

theorem mem_dbUpdateJson (db : Store) (s : String) (j : JValue) (now : Nat)
    (p : String × Doc) (h : p ∈ dbUpdateJson db s j now) :
    (∃ q ∈ db, p = (q.1, { q.2 with jsonData := j, updatedAt := now })) ∨ p ∈ db := by
  induction db with
  | nil => simp [dbUpdateJson] at h
  | cons q t ih =>
    obtain ⟨k2, e⟩ := q
    simp only [dbUpdateJson] at h
    by_cases h2 : k2 = s
    · rw [if_pos h2] at h
      rcases List.mem_cons.mp h with h | h
      · left
        exact ⟨(k2, e), List.mem_cons_self _ _, h⟩
      · right
        exact List.mem_cons_of_mem _ h
    · rw [if_neg h2] at h
      rcases List.mem_cons.mp h with h | h
      · right
        simp [h]
      · rcases ih h with ⟨q2, hq2, heq⟩ | h
        · exact Or.inl ⟨q2, List.mem_cons_of_mem _ hq2, heq⟩
        · exact Or.inr (List.mem_cons_of_mem _ h)

theorem mem_insertByCreated (p q : String × Doc) (l : List (String × Doc)) :
    q ∈ insertByCreated p l ↔ q = p ∨ q ∈ l := by
  induction l with
  | nil => simp [insertByCreated]
  | cons r t ih =>
    by_cases h : r.2.createdAt ≤ p.2.createdAt
    · simp [insertByCreated, h]
    · simp [insertByCreated, h, ih]
      tauto

theorem mem_sortByCreatedDesc (l : List (String × Doc)) (q : String × Doc) :
    q ∈ sortByCreatedDesc l ↔ q ∈ l := by
  induction l with
  | nil => simp [sortByCreatedDesc]
  | cons p t ih =>
    simp [sortByCreatedDesc, mem_insertByCreated, ih]

theorem TimeOK_mono (t t' : Nat) (db : Store) (h : TimeOK t db) (hle : t ≤ t') :
    TimeOK t' db := by
  intro p hp
  obtain ⟨h1, h2⟩ := h p hp
  exact ⟨h1, le_trans h2 hle⟩

theorem TimeOK_dbSet (t : Nat) (db : Store) (k : String) (d : Doc)
    (h : TimeOK t db) (hd1 : d.createdAt ≤ d.updatedAt) (hd2 : d.updatedAt ≤ t) :
    TimeOK t (dbSet db k d) := by
  intro p hp
  rcases mem_dbSet db k d p hp with hp | hp
  · subst hp
    exact ⟨hd1, hd2⟩
  · exact h p hp

theorem TimeOK_dbDelete (t : Nat) (db : Store) (k : String) (h : TimeOK t db) :
    TimeOK t (dbDelete db k) := by
  intro p hp
  exact h p (mem_dbDelete db k p hp)

theorem TimeOK_dbUpdateJson (t now : Nat) (db : Store) (s : String) (j : JValue)
    (h : TimeOK t db) (hle : t ≤ now) :
    TimeOK now (dbUpdateJson db s j now) := by
  intro p hp
  rcases mem_dbUpdateJson db s j now p hp with ⟨q, hq, heq⟩ | hp2
  · subst heq
    obtain ⟨h1, h2⟩ := h q hq
    refine ⟨?_, ?_⟩
    · show q.2.createdAt ≤ now
      omega
    · show now ≤ now
      omega
  · obtain ⟨h1, h2⟩ := h p hp2
    exact ⟨h1, by omega⟩

theorem validateSlug_ne_empty (s : String) (h : validateSlug s = true) : s ≠ "" := by
  intro he
  subst he
  simp [validateSlug] at h

theorem jsonParse_empty : jsonParse "" = none := rfl

theorem validateJSON_of_parse (s : String) (v : JValue) (h : jsonParse s = some v) :
    validateJSON s = v := by
  unfold validateJSON
  rw [h]

theorem validateJSON_of_fail (s : String) (h : jsonParse s = none) :
    validateJSON s = JValue.null := by
  unfold validateJSON
  rw [h]

/-! ## Handler shape lemmas -/

theorem createA_db_shape (now : Nat) (db : Store) (name jd slug : Option String) :
    (createA now db name jd slug).db = db ∨
    ∃ sl d, d.createdAt = now ∧ d.updatedAt = now ∧
      (createA now db name jd slug).db = dbSet db sl d := by
  unfold createA
  dsimp only
  split_ifs with h1 h2 h3
  · left
    rfl
  · left
    rfl
  · left
    rfl
  · split
    · left
      rfl
    · right
      exact ⟨_, _, rfl, rfl, rfl⟩

theorem createB_db_shape (now : Nat) (db : Store) (name jd slug : Option String) :
    (createB now db name jd slug).db = db ∨
    ∃ sl d, d.createdAt = now ∧ d.updatedAt = now ∧
      (createB now db name jd slug).db = dbSet db sl d := by
  unfold createB
  dsimp only
  split_ifs with h1 h2 h3
  · left
    rfl
  · left
    rfl
  · left
    rfl
  · split
    · left
      rfl
    · right
      exact ⟨_, _, rfl, rfl, rfl⟩

theorem updateA_db_shape (now : Nat) (db : Store) (s : String) (jd : Option String) :
    (updateA now db s jd).db = db ∨
    ∃ j, (updateA now db s jd).db = dbUpdateJson db s j now := by
  unfold updateA
  dsimp only
  split_ifs with h1 h2
  · left
    rfl
  · left
    rfl
  · split
    · left
      rfl
    · right
      exact ⟨_, rfl⟩

theorem updateB_db_shape (now : Nat) (db : Store) (s : String) (jd : Option String) :
    (updateB now db s jd).db = db ∨
    ∃ j, (updateB now db s jd).db = dbUpdateJson db s j now := by
  unfold updateB
  dsimp only
  split_ifs with h1 h2
  · left
    rfl
  · left
    rfl
  · split
    · left
      rfl
    · right
      exact ⟨_, rfl⟩

theorem deleteA_db_shape (db : Store) (s : String) :
    (deleteA db s).db = db ∨ (deleteA db s).db = dbDelete db s := by
  unfold deleteA
  split
  · left
    rfl
  · right
    rfl

theorem deleteB_db_shape (db : Store) (s : String) :
    (deleteB db s).db = db ∨ (deleteB db s).db = dbDelete db s := by
  unfold deleteB
  split_ifs with h1
  · left
    rfl
  · split
    · left
      rfl
    · right
      rfl

/-! ## Claim theorems -/

/-- Claim C7: for all strings s, `validateSlug s` is true iff s is non-empty
and consists exclusively of lowercase ASCII letters, digits, and hyphens
(the regex `^[a-z0-9-]+$`), with no normalization. -/
theorem C7_validateSlug_spec (s : String) :
    validateSlug s = true ↔
      (s ≠ "" ∧ ∀ c ∈ s.data, ('a' ≤ c ∧ c ≤ 'z') ∨ ('0' ≤ c ∧ c ≤ '9') ∨ c = '-') := by
  unfold validateSlug
  rw [Bool.and_eq_true]
  have hne : ((!s.data.isEmpty) = true) ↔ s ≠ "" := by
    cases s with
    | mk l =>
      cases l with
      | nil => simp
      | cons c cs =>
        constructor
        · intro _ h
          have h2 := congrArg String.data h
          simp at h2
        · intro _
          rfl
  rw [hne]
  simp only [List.all_eq_true]
  constructor
  · rintro ⟨h1, h2⟩
    refine ⟨h1, fun c hc => ?_⟩
    have := h2 c hc
    simp [slugChar] at this
    tauto
  · rintro ⟨h1, h2⟩
    refine ⟨h1, fun c hc => ?_⟩
    have := h2 c hc
    simp [slugChar]
    tauto

/-- Witness for C7 at the concrete slug "abc-123". -/
theorem C7_witness :
    validateSlug "abc-123" = true ∧ ("abc-123" : String) ≠ "" :=
  ⟨by decide, ((C7_validateSlug_spec "abc-123").mp (by decide)).1⟩

/-- Claim C6 (counterexample): the sentinel returned by `validateJSON` for a
parse failure is `null`, which coincides with the successful parse of the
valid JSON string "null" — so the sentinel is not distinguishable from every
successful parse result. -/
theorem C6_counterexample :
    jsonParse "null" = some JValue.null ∧
    validateJSON "null" = JValue.null ∧
    jsonParse "nul" = none ∧
    validateJSON "nul" = JValue.null := by
  decide

/-- Claim C6 (amended): `validateJSON` returns the parsed value when the
string is syntactically valid JSON and the sentinel `null` otherwise — the
sentinel coinciding with the parse of "null" itself — and parsing a
stringified value reproduces it exactly (round trip). -/
theorem C6_validateJSON_spec :
    (∀ s v, jsonParse s = some v → validateJSON s = v) ∧
    (∀ s, jsonParse s = none → validateJSON s = JValue.null) ∧
    (∀ v : JValue, jsonParse (stringify v) = some v) :=
  ⟨validateJSON_of_parse, validateJSON_of_fail, jsonParse_stringify⟩

/-- Witness for C6 at the concrete strings "true" and "bad". -/
theorem C6_witness :
    validateJSON "true" = JValue.bool true ∧
    validateJSON "bad" = JValue.null ∧
    jsonParse (stringify (JValue.bool true)) = some (JValue.bool true) :=
  ⟨C6_validateJSON_spec.1 "true" (JValue.bool true) (by decide),
   C6_validateJSON_spec.2.1 "bad" (by decide),
   C6_validateJSON_spec.2.2 (JValue.bool true)⟩

/-- Claim C10: for every syntactically valid JSON string whose parsed value
is JavaScript-falsy (null, false, 0, ""), the create and update handlers of
both variants respond 400 "Invalid JSON data" without any store operation,
because the handlers test the validator's result for truthiness; for truthy
parses the JSON check never yields a 400. -/
theorem C10_falsy_json_rejected (now : Nat) (db : Store) (n s j : String) (v : JValue)
    (hn : n ≠ "") (hs : validateSlug s = true) (hp : jsonParse j = some v) :
    (jsTruthy v = false →
      (createA now db (some n) (some j) (some s)).resp = ⟨400, errBody "Invalid JSON data"⟩ ∧
      (createA now db (some n) (some j) (some s)).ops = [] ∧
      (updateA now db s (some j)).resp = ⟨400, errBody "Invalid JSON data"⟩ ∧
      (updateA now db s (some j)).ops = [] ∧
      (createB now db (some n) (some j) (some s)).resp = ⟨400, errBody "Invalid JSON data"⟩ ∧
      (createB now db (some n) (some j) (some s)).ops = [] ∧
      (updateB now db s (some j)).resp = ⟨400, errBody "Invalid JSON data"⟩ ∧
      (updateB now db s (some j)).ops = []) ∧
    (jsTruthy v = true →
      (createA now db (some n) (some j) (some s)).resp.status ≠ 400 ∧
      (updateA now db s (some j)).resp.status ≠ 400 ∧
      (createB now db (some n) (some j) (some s)).resp.status ≠ 400 ∧
      (updateB now db s (some j)).resp.status ≠ 400) := by
  have hj : j ≠ "" := by
    intro he
    rw [he, jsonParse_empty] at hp
    exact Option.noConfusion hp
  have hv := validateJSON_of_parse j v hp
  have hsne := validateSlug_ne_empty s hs
  constructor
  · intro hf
    refine ⟨?_, ?_, ?_, ?_, ?_, ?_, ?_, ?_⟩ <;>
      simp [createA, updateA, createB, updateB, jsFalsy, hn, hj, hsne, hs, hv, hf,
        validateJSONOpt]
  · intro ht
    refine ⟨?_, ?_, ?_, ?_⟩
    · cases hdb : dbGet db s <;>
        simp [createA, jsFalsy, hn, hj, hsne, hs, hv, ht, hdb]
    · cases hdb : dbGet db s <;>
        simp [updateA, jsFalsy, hj, hv, ht, hdb]
    · cases hdb : dbGet db s <;>
        simp [createB, jsFalsy, hn, hj, hsne, hs, hv, ht, hdb]
    · cases hdb : dbGet db s <;>
        simp [updateB, hs, validateJSONOpt, hv, ht, hdb]

/-- Witness for C10: creating with the valid-but-falsy JSON string "false"
is rejected with 400 "Invalid JSON data" and no store call. -/
theorem C10_witness :
    (createA 0 [] (some "n") (some "false") (some "x")).resp =
      ⟨400, errBody "Invalid JSON data"⟩ ∧
    (createA 0 [] (some "n") (some "false") (some "x")).ops = [] := by
  have h := (C10_falsy_json_rejected 0 [] "n" "x" "false" (JValue.bool false)
    (by decide) (by decide) (by decide)).1 (by decide)
  exact ⟨h.1, h.2.1⟩

/-- Claim C1 (counterexample): in the flat-path variant, after a successful
create of slug "x" with payload "true", reading "x" responds 200 but with
the `{result, data, message}` envelope, not the parsed value itself. -/
theorem C1_counterexample :
    jsonParse "true" = some (JValue.bool true) ∧
    (createA 0 [] (some "n") (some "true") (some "x")).resp.status = 201 ∧
    (readA (createA 0 [] (some "n") (some "true") (some "x")).db "x").1.status = 200 ∧
    (readA (createA 0 [] (some "n") (some "true") (some "x")).db "x").1.body ≠
      JValue.bool true := by
  decide

/-- Claim C1 (amended): after a successful create, a read of the slug
responds 200; the `/api` variant returns exactly the parsed JSON value,
while the flat-path variant returns it wrapped in the
`{result:"SUCCESS", data, message:"Success"}` envelope. -/
theorem C1_create_read (now : Nat) (db : Store) (n j s : String) (v : JValue)
    (hn : n ≠ "") (hs : validateSlug s = true)
    (hp : jsonParse j = some v) (ht : jsTruthy v = true)
    (habs : dbGet db s = none) :
    (createA now db (some n) (some j) (some s)).resp.status = 201 ∧
    (readA (createA now db (some n) (some j) (some s)).db s).1 =
      ⟨200, envelopeCreateA v⟩ ∧
    (createB now db (some n) (some j) (some s)).resp.status = 201 ∧
    (readB (createB now db (some n) (some j) (some s)).db s).1 = ⟨200, v⟩ := by
  have hj : j ≠ "" := by
    intro he
    rw [he, jsonParse_empty] at hp
    exact Option.noConfusion hp
  have hv := validateJSON_of_parse j v hp
  have hsne := validateSlug_ne_empty s hs
  have hA : (createA now db (some n) (some j) (some s)).db =
      dbSet db s ⟨n, envelopeCreateA v, s, now, now⟩ := by
    simp [createA, jsFalsy, hn, hj, hsne, hs, hv, ht, habs]
  have hB : (createB now db (some n) (some j) (some s)).db =
      dbSet db s ⟨n, v, s, now, now⟩ := by
    simp [createB, jsFalsy, hn, hj, hsne, hs, hv, ht, habs]
  refine ⟨?_, ?_, ?_, ?_⟩
  · simp [createA, jsFalsy, hn, hj, hsne, hs, hv, ht, habs]
  · rw [hA]
    simp [readA, dbGet_dbSet_self]
  · simp [createB, jsFalsy, hn, hj, hsne, hs, hv, ht, habs]
  · rw [hB]
    simp [readB, hs, dbGet_dbSet_self]

/-- Witness for C1 (amended) at concrete inputs. -/
theorem C1_witness :
    (readA (createA 0 [] (some "n") (some "true") (some "x")).db "x").1 =
      ⟨200, envelopeCreateA (JValue.bool true)⟩ ∧
    (readB (createB 0 [] (some "n") (some "true") (some "x")).db "x").1 =
      ⟨200, JValue.bool true⟩ := by
  have h := C1_create_read 0 [] "n" "true" "x" (JValue.bool true)
    (by decide) (by decide) (by decide) (by decide) (by decide)
  exact ⟨h.2.1, h.2.2.2⟩

/-- Claim C2 (counterexample): in the flat-path variant, deleting with the
invalid slug "My_Slug" does not respond 400 — it queries the store and
responds 404. -/
theorem C2_counterexample :
    validateSlug "My_Slug" = false ∧
    (deleteA [] "My_Slug").resp.status = 404 ∧
    (deleteA [] "My_Slug").ops = [StoreOp.opGet "My_Slug"] := by
  decide

/-- Claim C2 (amended): for a slug failing the format check, create rejects
with 400 and no store operation in both variants, and the `/api` variant's
read, update, and delete do the same; the flat-path variant's read, update,
and delete never validate the slug: read and delete respond 404 or 200, and
update validates only its JSON body (whose checks can still yield 400), so
with a truthy-parsing JSON body it too queries the store with the invalid
slug and responds 404 or 200, never a slug-format 400. -/
theorem C2_slug_validation (now : Nat) (db : Store) (s n j : String)
    (hs : validateSlug s = false) (hn : n ≠ "") (hj : j ≠ "") :
    ((createA now db (some n) (some j) (some s)).resp.status = 400 ∧
     (createA now db (some n) (some j) (some s)).ops = [] ∧
     (createA now db (some n) (some j) (some s)).db = db) ∧
    ((createB now db (some n) (some j) (some s)).resp.status = 400 ∧
     (createB now db (some n) (some j) (some s)).ops = [] ∧
     (createB now db (some n) (some j) (some s)).db = db) ∧
    ((readB db s).1.status = 400 ∧ (readB db s).2 = []) ∧
    ((updateB now db s (some j)).resp.status = 400 ∧
     (updateB now db s (some j)).ops = [] ∧
     (updateB now db s (some j)).db = db) ∧
    ((deleteB db s).resp.status = 400 ∧ (deleteB db s).ops = [] ∧
     (deleteB db s).db = db) ∧
    ((readA db s).1.status = 404 ∨ (readA db s).1.status = 200) ∧
    ((deleteA db s).resp.status = 404 ∨ (deleteA db s).resp.status = 200) ∧
    (jsTruthy (validateJSON j) = true →
      ((updateA now db s (some j)).resp.status = 404 ∨
       (updateA now db s (some j)).resp.status = 200) ∧
      (updateA now db s (some j)).ops ≠ []) := by
  refine ⟨?_, ?_, ?_, ?_, ?_, ?_, ?_, ?_⟩
  · by_cases hse : s = ""
    · subst hse
      refine ⟨?_, ?_, ?_⟩ <;> simp [createA, jsFalsy]
    · refine ⟨?_, ?_, ?_⟩ <;> simp [createA, jsFalsy, hn, hj, hse, hs]
  · by_cases hse : s = ""
    · subst hse
      refine ⟨?_, ?_, ?_⟩ <;> simp [createB, jsFalsy]
    · refine ⟨?_, ?_, ?_⟩ <;> simp [createB, jsFalsy, hn, hj, hse, hs]
  · constructor <;> simp [readB, hs]
  · refine ⟨?_, ?_, ?_⟩ <;> simp [updateB, hs]
  · refine ⟨?_, ?_, ?_⟩ <;> simp [deleteB, hs]
  · cases hdb : dbGet db s
    · left
      simp [readA, hdb]
    · right
      simp [readA, hdb]
  · cases hdb : dbGet db s
    · left
      simp [deleteA, hdb]
    · right
      simp [deleteA, hdb]
  · intro ht
    constructor
    · cases hdb : dbGet db s
      · left
        simp [updateA, jsFalsy, hj, ht, hdb]
      · right
        simp [updateA, jsFalsy, hj, ht, hdb]
    · cases hdb : dbGet db s <;> simp [updateA, jsFalsy, hj, ht, hdb]

/-- Witness for C2 (amended) at the invalid slug "My_Slug": create rejects,
the `/api` read rejects without a store call, and the flat-path update with
the valid JSON body "true" responds 404, not 400. -/
theorem C2_witness :
    (createA 0 [] (some "n") (some "true") (some "My_Slug")).resp.status = 400 ∧
    (readB [] "My_Slug").1.status = 400 ∧ (readB [] "My_Slug").2 = [] ∧
    ((updateA 0 [] "My_Slug" (some "true")).resp.status = 404 ∨
     (updateA 0 [] "My_Slug" (some "true")).resp.status = 200) := by
  have h := C2_slug_validation 0 [] "My_Slug" "n" "true"
    (by decide) (by decide) (by decide)
  exact ⟨h.1.1, h.2.2.1.1, h.2.2.1.2, (h.2.2.2.2.2.2.2 (by decide)).1⟩

/-- Claim C3: if a document with a slug already exists, a second create for
that slug responds 409 in both variants, leaves the store unchanged, and the
stored document under that slug is still the one from the first create. -/
theorem C3_duplicate_create (now2 : Nat) (db : Store) (n2 j2 s : String) (d : Doc)
    (v2 : JValue) (hex : dbGet db s = some d)
    (hn2 : n2 ≠ "") (hs : validateSlug s = true)
    (hp2 : jsonParse j2 = some v2) (ht2 : jsTruthy v2 = true) :
    (createA now2 db (some n2) (some j2) (some s)).resp.status = 409 ∧
    (createA now2 db (some n2) (some j2) (some s)).db = db ∧
    dbGet (createA now2 db (some n2) (some j2) (some s)).db s = some d ∧
    (createB now2 db (some n2) (some j2) (some s)).resp.status = 409 ∧
    (createB now2 db (some n2) (some j2) (some s)).db = db ∧
    dbGet (createB now2 db (some n2) (some j2) (some s)).db s = some d := by
  have hj : j2 ≠ "" := by
    intro he
    rw [he, jsonParse_empty] at hp2
    exact Option.noConfusion hp2
  have hv := validateJSON_of_parse j2 v2 hp2
  have hsne := validateSlug_ne_empty s hs
  refine ⟨?_, ?_, ?_, ?_, ?_, ?_⟩ <;>
    simp [createA, createB, jsFalsy, hn2, hj, hsne, hs, hv, ht2, hex]

/-- Witness for C3 at a concrete one-document store. -/
theorem C3_witness :
    (createA 1 [("x", ⟨"n", JValue.bool true, "x", 0, 0⟩)]
      (some "other") (some "true") (some "x")).resp.status = 409 ∧
    (createA 1 [("x", ⟨"n", JValue.bool true, "x", 0, 0⟩)]
      (some "other") (some "true") (some "x")).db =
      [("x", ⟨"n", JValue.bool true, "x", 0, 0⟩)] := by
  have h := C3_duplicate_create 1 [("x", ⟨"n", JValue.bool true, "x", 0, 0⟩)]
    "other" "true" "x" ⟨"n", JValue.bool true, "x", 0, 0⟩ (JValue.bool true)
    (by decide) (by decide) (by decide) (by decide) (by decide)
  exact ⟨h.1, h.2.1⟩

/-- Claim C5 (code bug): in the flat-path variant, `GET /health` is routed
to the earlier-registered `'/:slug'` read handler and responds 404 on a
store with no "health" document, even though the (unreachable) `/health`
handler would respond 200 `{status:'OK', timestamp}`; the extended `/api`
variant's health check responds 500 exactly when the store fails. -/
theorem C5_health_shadowed :
    routeGetA [] "/health" = ⟨404, errBody "Endpoint not found"⟩ ∧
    healthA "t0" = ⟨200, jobj [("status", .str "OK"), ("timestamp", .str "t0")]⟩ ∧
    (∀ (nowIso : String) (hc : Option JValue),
      (healthB false nowIso hc).1.status = 500 ∧
      (healthB true nowIso hc).1.status = 200 ∧
      bodyLookup (healthB true nowIso hc).1.body "status" = some (.str "OK")) := by
  refine ⟨by decide, by decide, ?_⟩
  intro nowIso hc
  refine ⟨?_, ?_, ?_⟩
  · simp [healthB]
  · simp [healthB]
  · simp [healthB, bodyLookup, jobj, JObject.ofList, JObject.lookup]

/-- Claim C9 (counterexample): the flat-path list response has no `count`
field at all — on the empty store it is `{endpoints: []}`. -/
theorem C9_counterexample :
    (listA []).status = 200 ∧
    bodyLookup (listA []).body "count" = none ∧
    listA [] = ⟨200, jobj [("endpoints", jarrOfList [])]⟩ := by
  decide

/-- Claim C9 (amended): the `/api` list responds 200 with a `count` equal to
the number of stored documents and entries exposing slug, name, createdAt
(and endpoint) but never jsonData, returning `{count:0, endpoints:[]}` on an
empty store; the flat-path list responds 200 with the same projection but
its body has no `count` field. -/
theorem C9_list_shape (db : Store) :
    (listB db).status = 200 ∧
    bodyLookup (listB db).body "count" = some (.num (db.length : Int)) ∧
    bodyLookup (listB db).body "endpoints" = some (jarrOfList (db.map listEntryB)) ∧
    (∀ p ∈ db,
      bodyLookup (listEntryB p) "jsonData" = none ∧
      bodyLookup (listEntryB p) "slug" = some (.str p.1) ∧
      bodyLookup (listEntryB p) "name" = some (.str p.2.name) ∧
      bodyLookup (listEntryB p) "createdAt" = some (.str (Nat.repr p.2.createdAt))) ∧
    (db = [] → listB db = ⟨200, jobj [("count", .num 0), ("endpoints", jarrOfList [])]⟩) ∧
    (listA db).status = 200 ∧
    bodyLookup (listA db).body "count" = none ∧
    bodyLookup (listA db).body "endpoints" =
      some (jarrOfList ((sortByCreatedDesc db).map listEntryA)) ∧
    (∀ e ∈ (sortByCreatedDesc db).map listEntryA, ∃ p ∈ db, e = listEntryA p) ∧
    (∀ p ∈ db,
      bodyLookup (listEntryA p) "jsonData" = none ∧
      bodyLookup (listEntryA p) "slug" = some (.str p.2.slug) ∧
      bodyLookup (listEntryA p) "name" = some (.str p.2.name) ∧
      bodyLookup (listEntryA p) "createdAt" = some (.num (p.2.createdAt : Int))) := by
  refine ⟨rfl, ?_, ?_, ?_, ?_, rfl, ?_, ?_, ?_, ?_⟩
  · simp [listB, bodyLookup, jobj, JObject.ofList, JObject.lookup]
  · simp [listB, bodyLookup, jobj, JObject.ofList, JObject.lookup]
  · intro p _
    refine ⟨?_, ?_, ?_, ?_⟩ <;>
      simp [listEntryB, bodyLookup, jobj, JObject.ofList, JObject.lookup]
  · intro h
    subst h
    rfl
  · simp [listA, bodyLookup, jobj, JObject.ofList, JObject.lookup]
  · simp [listA, bodyLookup, jobj, JObject.ofList, JObject.lookup]
  · intro e he
    rcases List.mem_map.mp he with ⟨p, hp, heq⟩
    exact ⟨p, (mem_sortByCreatedDesc db p).mp hp, heq.symm⟩
  · intro p _
    refine ⟨?_, ?_, ?_, ?_⟩ <;>
      simp [listEntryA, bodyLookup, jobj, JObject.ofList, JObject.lookup]

/-- Witness for C9 (amended): the `/api` list on a one-document store. -/
theorem C9_witness :
    bodyLookup (listB [("x", ⟨"n", JValue.bool true, "x", 0, 0⟩)]).body "count" =
      some (JValue.num 1) ∧
    bodyLookup (listEntryB ("x", ⟨"n", JValue.bool true, "x", 0, 0⟩)) "jsonData" = none := by
  have h := C9_list_shape [("x", ⟨"n", JValue.bool true, "x", 0, 0⟩)]
  exact ⟨h.2.1, (h.2.2.2.1 ("x", ⟨"n", JValue.bool true, "x", 0, 0⟩) (by decide)).1⟩

/-- Claim C8 (counterexample): in the flat-path variant, an update with the
invalid slug "My_Slug" and valid JSON is not answered 400 before the store —
the handler performs a store get and responds 404. -/
theorem C8_counterexample :
    validateSlug "My_Slug" = false ∧
    (updateA 0 [] "My_Slug" (some "true")).resp.status = 404 ∧
    (updateA 0 [] "My_Slug" (some "true")).ops = [StoreOp.opGet "My_Slug"] := by
  decide

/-- Claim C8 (amended): in the create handlers of both variants every
validation failure (missing field, invalid slug, falsy-JSON) produces a 400
response with no store operation and an unchanged store; the `/api` read,
update, and delete do the same for an invalid slug, and the `/api` update
also answers any missing/malformed/falsy JSON body with 400, no store
operation, and an unchanged store; the flat-path update answers 400 before
the store only for JSON-validation failures (the flat-path
read/update/delete never validate the slug). -/
theorem C8_validation_before_store (now : Nat) (db : Store)
    (name jd slug : Option String) (s : String) :
    ((jsFalsy name || jsFalsy jd || jsFalsy slug) = true ∨
        validateSlug (slug.getD "") = false ∨
        jsTruthy (validateJSON (jd.getD "")) = false →
      (createA now db name jd slug).resp.status = 400 ∧
      (createA now db name jd slug).ops = [] ∧
      (createA now db name jd slug).db = db ∧
      (createB now db name jd slug).resp.status = 400 ∧
      (createB now db name jd slug).ops = [] ∧
      (createB now db name jd slug).db = db) ∧
    (validateSlug s = false →
      (readB db s).1.status = 400 ∧ (readB db s).2 = [] ∧
      (updateB now db s jd).resp.status = 400 ∧ (updateB now db s jd).ops = [] ∧
      (deleteB db s).resp.status = 400 ∧ (deleteB db s).ops = []) ∧
    (validateSlug s = true → jsTruthy (validateJSONOpt jd) = false →
      (updateB now db s jd).resp.status = 400 ∧ (updateB now db s jd).ops = [] ∧
      (updateB now db s jd).db = db) ∧
    (jsFalsy jd = true ∨ jsTruthy (validateJSON (jd.getD "")) = false →
      (updateA now db s jd).resp.status = 400 ∧ (updateA now db s jd).ops = []) := by
  refine ⟨?_, ?_, ?_, ?_⟩
  · intro h
    by_cases h1 : (jsFalsy name || jsFalsy jd || jsFalsy slug) = true
    · refine ⟨?_, ?_, ?_, ?_, ?_, ?_⟩ <;> simp [createA, createB, h1]
    · have h1f : (jsFalsy name || jsFalsy jd || jsFalsy slug) = false := by
        cases hb : (jsFalsy name || jsFalsy jd || jsFalsy slug)
        · rfl
        · exact absurd hb h1
      by_cases h2 : validateSlug (slug.getD "") = false
      · refine ⟨?_, ?_, ?_, ?_, ?_, ?_⟩ <;> simp [createA, createB, h1f, h2]
      · have h2t : validateSlug (slug.getD "") = true := by
          cases hb : validateSlug (slug.getD "")
          · exact absurd hb h2
          · rfl
        have h3 : jsTruthy (validateJSON (jd.getD "")) = false := by
          rcases h with h | h | h
          · exact absurd h h1
          · exact absurd h h2
          · exact h
        refine ⟨?_, ?_, ?_, ?_, ?_, ?_⟩ <;> simp [createA, createB, h1f, h2t, h3]
  · intro h
    refine ⟨?_, ?_, ?_, ?_, ?_, ?_⟩ <;> simp [readB, updateB, deleteB, h]
  · intro hsT hjF
    refine ⟨?_, ?_, ?_⟩ <;> simp [updateB, hsT, hjF]
  · intro h
    by_cases h1 : jsFalsy jd = true
    · constructor <;> simp [updateA, h1]
    · have h1f : jsFalsy jd = false := by
        cases hb : jsFalsy jd
        · rfl
        · exact absurd hb h1
      have h3 : jsTruthy (validateJSON (jd.getD "")) = false := by
        rcases h with h | h
        · exact absurd h h1
        · exact h
      constructor <;> simp [updateA, h1f, h3]

/-- Witness for C8 (amended): creating with slug "My_Slug" is rejected with
400 and no store call in both variants, and the `/api` update with the valid
slug "x" but the malformed JSON body "not-json" is rejected with 400 and no
store call. -/
theorem C8_witness :
    (createA 0 [] (some "n") (some "true") (some "My_Slug")).resp.status = 400 ∧
    (createA 0 [] (some "n") (some "true") (some "My_Slug")).ops = [] ∧
    (createB 0 [] (some "n") (some "true") (some "My_Slug")).ops = [] ∧
    (updateB 0 [] "x" (some "not-json")).resp.status = 400 ∧
    (updateB 0 [] "x" (some "not-json")).ops = [] := by
  have h := (C8_validation_before_store 0 [] (some "n") (some "true") (some "My_Slug")
    "My_Slug").1 (Or.inr (Or.inl (by decide)))
  have h2 := (C8_validation_before_store 0 [] (some "n") (some "not-json") (some "My_Slug")
    "x").2.2.1 (by decide) (by decide)
  exact ⟨h.1, h.2.1, h.2.2.2.2.1, h2.1, h2.2.1⟩

/-- Claim C4: a successful update in either variant responds 200, replaces
only the `jsonData` field (wrapped in the update envelope in the flat-path
variant) and stamps `updatedAt` with the current server time, leaving
`createdAt`, `name`, and `slug` of the document and all other documents
unchanged; and under a monotone clock, `updatedAt ≥ createdAt` holds for
every document after every mutating operation. -/
theorem C4_update_frame (now t : Nat) (db : Store) (s j : String) (d : Doc) (v : JValue)
    (hex : dbGet db s = some d) (hs : validateSlug s = true)
    (hp : jsonParse j = some v) (ht : jsTruthy v = true)
    (hok : TimeOK t db) (hmono : t ≤ now) :
    (updateA now db s (some j)).resp.status = 200 ∧
    dbGet (updateA now db s (some j)).db s =
      some { d with jsonData := envelopeUpdateA v, updatedAt := now } ∧
    (∀ k, k ≠ s → dbGet (updateA now db s (some j)).db k = dbGet db k) ∧
    (updateB now db s (some j)).resp.status = 200 ∧
    dbGet (updateB now db s (some j)).db s =
      some { d with jsonData := v, updatedAt := now } ∧
    (∀ k, k ≠ s → dbGet (updateB now db s (some j)).db k = dbGet db k) ∧
    TimeOK now (updateA now db s (some j)).db ∧
    TimeOK now (updateB now db s (some j)).db ∧
    (∀ name2 jd2 slug2, TimeOK now (createA now db name2 jd2 slug2).db) ∧
    (∀ name2 jd2 slug2, TimeOK now (createB now db name2 jd2 slug2).db) ∧
    (∀ s2, TimeOK now (deleteA db s2).db) ∧
    (∀ s2, TimeOK now (deleteB db s2).db) := by
  have hj : j ≠ "" := by
    intro he
    rw [he, jsonParse_empty] at hp
    exact Option.noConfusion hp
  have hv := validateJSON_of_parse j v hp
  have hnow : TimeOK now db := TimeOK_mono t now db hok hmono
  have hAdb : (updateA now db s (some j)).db = dbUpdateJson db s (envelopeUpdateA v) now := by
    simp [updateA, jsFalsy, hj, hv, ht, hex]
  have hBdb : (updateB now db s (some j)).db = dbUpdateJson db s v now := by
    simp [updateB, hs, validateJSONOpt, hv, ht, hex]
  refine ⟨?_, ?_, ?_, ?_, ?_, ?_, ?_, ?_, ?_, ?_, ?_, ?_⟩
  · simp [updateA, jsFalsy, hj, hv, ht, hex]
  · rw [hAdb]
    exact dbGet_dbUpdateJson_self db s d _ now hex
  · intro k hk
    rw [hAdb]
    exact dbGet_dbUpdateJson_ne db s k _ now hk
  · simp [updateB, hs, validateJSONOpt, hv, ht, hex]
  · rw [hBdb]
    exact dbGet_dbUpdateJson_self db s d _ now hex
  · intro k hk
    rw [hBdb]
    exact dbGet_dbUpdateJson_ne db s k _ now hk
  · rw [hAdb]
    exact TimeOK_dbUpdateJson t now db s _ hok hmono
  · rw [hBdb]
    exact TimeOK_dbUpdateJson t now db s _ hok hmono
  · intro n2 j2 s2
    rcases createA_db_shape now db n2 j2 s2 with h | ⟨sl, d2, hc, hu, h⟩
    · rw [h]
      exact hnow
    · rw [h]
      exact TimeOK_dbSet now db sl d2 hnow (by omega) (by omega)
  · intro n2 j2 s2
    rcases createB_db_shape now db n2 j2 s2 with h | ⟨sl, d2, hc, hu, h⟩
    · rw [h]
      exact hnow
    · rw [h]
      exact TimeOK_dbSet now db sl d2 hnow (by omega) (by omega)
  · intro s2
    rcases deleteA_db_shape db s2 with h | h
    · rw [h]
      exact hnow
    · rw [h]
      exact TimeOK_dbDelete now db s2 hnow
  · intro s2
    rcases deleteB_db_shape db s2 with h | h
    · rw [h]
      exact hnow
    · rw [h]
      exact TimeOK_dbDelete now db s2 hnow

/-- Witness for C4 at a concrete one-document store and clock step 0 → 1. -/
theorem C4_witness :
    dbGet (updateA 1 [("x", ⟨"n", JValue.bool true, "x", 0, 0⟩)] "x" (some "true")).db "x" =
      some ⟨"n", envelopeUpdateA (JValue.bool true), "x", 0, 1⟩ ∧
    dbGet (updateB 1 [("x", ⟨"n", JValue.bool true, "x", 0, 0⟩)] "x" (some "true")).db "x" =
      some ⟨"n", JValue.bool true, "x", 0, 1⟩ := by
  have h := C4_update_frame 1 0 [("x", ⟨"n", JValue.bool true, "x", 0, 0⟩)] "x" "true"
    ⟨"n", JValue.bool true, "x", 0, 0⟩ (JValue.bool true)
    (by decide) (by decide) (by decide) (by decide)
    (by
      intro p hp
      simp at hp
      subst hp
      exact ⟨Nat.le_refl 0, Nat.le_refl 0⟩)
    (by decide)
  exact ⟨h.2.1, h.2.2.2.2.1⟩
